import Mathlib

/-!
Verification of the AppTrust rollback utility
(`scripts/apptrust_rollback.py`).

The development shallowly embeds the decision core of the script:
the semantic-version parser and comparator, the eligible-version view,
the successor selector, and the rollback orchestration (modelled as a
trace of registry calls and printed lines over an abstract registry
client behaviour).  Machine integers do not occur (Python integers are
unbounded), so `Nat`/`Int` are used directly.
-/

namespace Bookverse

/-! ### Python primitives used by the script -/

/-- Python `str.isdigit` restricted to the ASCII identifiers that occur in
semantic versions: nonempty and all characters decimal digits. -/
def pyIsDigit (s : String) : Bool :=
  !s.data.isEmpty && s.data.all Char.isDigit

/-- Value of a decimal digit character. -/
def digitVal (c : Char) : Nat := c.toNat - 48

/-- Value of a list of decimal digit characters, most significant first.
This is Python `int(...)` on an all-digit string. -/
def digitsVal (l : List Char) : Nat :=
  l.foldl (fun a c => 10 * a + digitVal c) 0

/-- Python `int(s)` for the all-digit strings on which the script calls it. -/
def pyInt (s : String) : Nat := digitsVal s.data

/-- The whitespace characters matched by `\s` in the Python regex
(ASCII range; the script only ever sees ASCII version strings). -/
def pyWs (c : Char) : Bool :=
  c = ' ' || c = '\t' || c = '\n' || c = '\r' || c = '\x0b' || c = '\x0c'

/-! ### The semantic version model

Source: `SEMVER_RE` and the frozen dataclass `SemVer` with its
`parse` static method. -/

/-- Mirrors the Python `SemVer` dataclass: numeric core, prerelease
identifier tuple, and the verbatim original string. -/
structure SemVer where
  major : Nat
  minor : Nat
  patch : Nat
  prerelease : List String
  original : String
deriving DecidableEq, Repr

/-- Characters allowed in prerelease/build identifiers: `[0-9a-zA-Z-]`. -/
def isIdentChar (c : Char) : Bool := c.isAlpha || c.isDigit || c = '-'

/-- Splits a character list at every `'.'`; models Python `str.split(".")`
(used by `SemVer.parse` on the prerelease group) and the `(?:\.…)*`
structure of `SEMVER_RE`. -/
def splitOnDot : List Char → List (List Char)
  | [] => [[]]
  | c :: rest =>
    match splitOnDot rest with
    | [] => [[]]
    | g :: gs => if c = '.' then [] :: g :: gs else (c :: g) :: gs

/-- A prerelease identifier as accepted by `SEMVER_RE`:
`0|[1-9]\d*|[a-zA-Z-][0-9a-zA-Z-]*`. -/
def validPreIdent (cs : List Char) : Bool :=
  match cs with
  | [] => false
  | c :: rest =>
    cs.all isIdentChar &&
      (if cs.all Char.isDigit then (decide (c ≠ '0') || decide (rest = []))
       else c.isAlpha || decide (c = '-'))

/-- A build identifier as accepted by `SEMVER_RE`: `[0-9a-zA-Z-]+`. -/
def validBuildIdent (cs : List Char) : Bool :=
  !cs.isEmpty && cs.all isIdentChar

/-- Parses one numeric component `0|[1-9]\d*` followed by the rest of the
input.  `SEMVER_RE` demands no superfluous leading zero; a longer digit
run with a leading zero can never satisfy the anchored pattern. -/
def parseNum (l : List Char) : Option (Nat × List Char) :=
  let ds := l.takeWhile Char.isDigit
  let rest := l.dropWhile Char.isDigit
  if ds.isEmpty then none
  else if ds.head? = some '0' && decide (ds.length ≠ 1) then none
  else some (digitsVal ds, rest)

/-- Expects and consumes one specific character. -/
def expectChar (c : Char) : List Char → Option (List Char)
  | [] => none
  | x :: rest => if x = c then some rest else none

/-- Faithful functional rendering of a match of `SEMVER_RE` against the
whole input: optional surrounding whitespace, optional `v`, three
dot-separated numeric components without superfluous leading zeros,
optional `-`-prefixed prerelease, optional `+`-prefixed build metadata
(validated, then discarded).  Returns the captured groups. -/
def matchSemverRE (version : String) : Option (Nat × Nat × Nat × List String) :=
  let l := version.data.dropWhile pyWs
  let l := (l.reverse.dropWhile pyWs).reverse
  let l := match l with
           | 'v' :: t => t
           | _ => l
  match parseNum l with
  | none => none
  | some (maj, r1) =>
  match expectChar ('.') r1 with
  | none => none
  | some r2 =>
  match parseNum r2 with
  | none => none
  | some (mino, r3) =>
  match expectChar ('.') r3 with
  | none => none
  | some r4 =>
  match parseNum r4 with
  | none => none
  | some (pat, r5) =>
  -- prerelease and build sections: the identifier character classes
  -- exclude '+', so the prerelease part is everything before the first '+'
  let preB := r5.takeWhile (fun c => c ≠ '+')
  let rest := r5.dropWhile (fun c => c ≠ '+')
  let pre? : Option (List String) :=
    match preB with
    | [] => some []
    | '-' :: body =>
      let parts := splitOnDot body
      if parts.all validPreIdent then some (parts.map (fun p => String.mk p)) else none
    | _ => none
  match pre? with
  | none => none
  | some prerelease =>
  let buildOk : Bool :=
    match rest with
    | [] => true
    | '+' :: body => (splitOnDot body).all validBuildIdent
    | _ => false
  if buildOk then some (maj, mino, pat, prerelease) else none

/-- `SemVer.parse`: match the regex; on success build the frozen dataclass
from the captured groups (the prerelease group is split on `"."`,
which `matchSemverRE` has already done), keeping the original string. -/
def SemVer.parse (version : String) : Option SemVer :=
  match matchSemverRE version with
  | none => none
  | some (maj, mino, pat, prerelease) =>
    some { major := maj, minor := mino, patch := pat,
           prerelease := prerelease, original := version }

/-! ### The comparator

Source: `compare_semver` and `SemVer.__lt__`. -/

/-- One iteration of the prerelease loop of `compare_semver` for the pair
`(x, y)`.  Result `0` means the loop continues (`at == bt`, or both
numeric with equal values); `-1`/`1` are early returns.  Python string
comparison is code-point lexicographic, i.e. the lexicographic order on
the character lists. -/
def identStep (x y : String) : Int :=
  if x = y then 0
  else if pyIsDigit x && pyIsDigit y then
    (if pyInt x < pyInt y then -1 else if pyInt y < pyInt x then 1 else 0)
  else if pyIsDigit x && !pyIsDigit y then -1
  else if !pyIsDigit x && pyIsDigit y then 1
  else if x.data < y.data then -1 else 1

/-- The prerelease loop of `compare_semver` over `zip(a.prerelease,
b.prerelease)`: the first decisive comparison, if any. -/
def preCmpLoop : List (String × String) → Option Int
  | [] => none
  | (x, y) :: rest => if identStep x y = 0 then preCmpLoop rest else some (identStep x y)

/-- The prerelease section of `compare_semver`: an empty prerelease
outranks a nonempty one; otherwise the pairwise loop, then the length
comparison. -/
def prCmp (p q : List String) : Int :=
  if p.isEmpty && !q.isEmpty then 1
  else if !p.isEmpty && q.isEmpty then -1
  else
    match preCmpLoop (p.zip q) with
    | some r => r
    | none =>
      if p.length ≠ q.length then (if p.length < q.length then -1 else 1) else 0

/-- `compare_semver(a, b)`: numeric core first, then the prerelease rules. -/
def compare_semver (a b : SemVer) : Int :=
  if a.major ≠ b.major then (if a.major < b.major then -1 else 1)
  else if a.minor ≠ b.minor then (if a.minor < b.minor then -1 else 1)
  else if a.patch ≠ b.patch then (if a.patch < b.patch then -1 else 1)
  else prCmp a.prerelease b.prerelease

/-- `SemVer.__lt__`. -/
def SemVer.lt (a b : SemVer) : Prop := compare_semver a b < 0

instance : Decidable (SemVer.lt a b) := by unfold SemVer.lt; infer_instance

/-- `sort_versions_by_semver_desc`: parse each string, silently drop
failures, and sort the parsed pairs descending by the comparator.
Python `list.sort(key=…, reverse=True)` is a stable descending sort —
the unique permutation that is non-increasing under the key order and
keeps key-equal elements in input order — rendered here as a stable
insertion sort with "not strictly below". -/
def sort_versions_by_semver_desc (version_strings : List String) : List String :=
  let parsed := version_strings.filterMap
    (fun v => (SemVer.parse v).map (fun sv => (sv, v)))
  let sorted := List.insertionSort (fun a b => ¬ SemVer.lt a.1 b.1) parsed
  sorted.map (fun t => t.2)

/-! ### Registry records and the eligible version view

Source: the module constants, `get_prod_versions`. -/

def TRUSTED : String := "TRUSTED_RELEASE"
def RELEASED : String := "RELEASED"
def QUARANTINE_TAG : String := "quarantine"
def LATEST_TAG : String := "latest"
def BACKUP_BEFORE_LATEST : String := "original_tag_before_latest"
def BACKUP_BEFORE_QUARANTINE : String := "original_tag_before_quarantine"

/-- A raw record from the registry listing: the `version`,
`tag` (possibly JSON null) and `release_status` fields. -/
structure RawRec where
  version : String
  tag : Option String
  release_status : String
deriving DecidableEq, Repr

/-- A normalized record, as built by the loop in `get_prod_versions`. -/
structure VRec where
  version : String
  tag : String
  release_status : String
deriving DecidableEq, Repr

/-- Python `str.upper()`: upper-case the string character by character. -/
def pyUpper (s : String) : String := String.mk (s.data.map Char.toUpper)

/-- The normalization loop of `get_prod_versions`: stringify the fields,
replace a null tag by `""`, upper-case the release status, and keep the
record exactly when the status is `TRUSTED_RELEASE` or `RELEASED`. -/
def normRecords (raw : List RawRec) : List VRec :=
  raw.filterMap (fun v =>
    let ver := v.version
    let tag_str := v.tag.getD ""
    let rs := pyUpper v.release_status
    if rs = TRUSTED || rs = RELEASED then some ⟨ver, tag_str, rs⟩ else none)

/-- The dictionary comprehension `{ver: i for i, ver in enumerate(order)}`:
sequential assignments, a later binding for the same key overwrites. -/
def idxDictAux : List String → Nat → (String → Option Nat) → (String → Option Nat)
  | [], _, d => d
  | v :: rest, i, d => idxDictAux rest (i + 1) (fun k => if k = v then some i else d k)

def idxDict (order : List String) : String → Option Nat :=
  idxDictAux order 0 (fun _ => none)

/-- The sort key `idx.get(x["version"], 10**9)`. -/
def sortKey (order : List String) (r : VRec) : Nat :=
  (idxDict order r.version).getD (10 ^ 9)

/-- `get_prod_versions`: normalize and filter the raw listing, compute the
descending SemVer order of the version strings, and stably sort the
records by position in that order (`10**9` for versions absent from it).
Python `list.sort(key=…)` is a stable ascending sort by the key. -/
def get_prod_versions (raw : List RawRec) : List VRec :=
  let norm := normRecords raw
  let order := sort_versions_by_semver_desc (norm.map (fun v => v.version))
  List.insertionSort (fun a b => sortKey order a ≤ sortKey order b) norm

/-! ### The successor selector

Source: `pick_next_latest`. -/

/-- The records that survive the two `continue`s of the first loop of
`pick_next_latest`: neither the excluded version nor quarantine-tagged. -/
def survivors (l : List VRec) (excl : String) : List VRec :=
  l.filter (fun v => !decide (v.version = excl) && !decide (v.tag = QUARANTINE_TAG))

/-- The `dup` dictionary of `pick_next_latest`:
`dup.setdefault(v["version"], []).append(v)` over the surviving records
groups them by version, preserving order, so the list bound to a key is
exactly the surviving records carrying that version. -/
def dupGroup (l : List VRec) (excl : String) (k : String) : List VRec :=
  (survivors l excl).filter (fun v => decide (v.version = k))

/-- The second loop of `pick_next_latest`: distinct version strings in
scan order, skipping the excluded version, keeping only versions present
in `dup` (the `seen` set is exactly the set of entries of the
accumulator). -/
def orderedVers (l : List VRec) (excl : String) : List String :=
  l.foldl (fun acc v =>
    if v.version = excl then acc
    else if !(dupGroup l excl v.version).isEmpty && !decide (v.version ∈ acc)
         then acc ++ [v.version] else acc) []

/-- `pick_next_latest`: `None` when `dup` is empty; otherwise the third
loop returns on its first iteration — the first `TRUSTED_RELEASE` record
of the first ordered version's group, else that group's first record.
(`cands[0]` on an empty group would be a Python `IndexError`; it cannot
happen because every ordered version has a nonempty group.) -/
def pick_next_latest (sorted_prod_versions : List VRec) (exclude_version : String) :
    Option VRec :=
  if (survivors sorted_prod_versions exclude_version).isEmpty then none
  else
    match orderedVers sorted_prod_versions exclude_version with
    | [] => none
    | ver :: _ =>
      let cands := dupGroup sorted_prod_versions exclude_version ver
      match cands.find? (fun c => decide (c.release_status = TRUSTED)) with
      | some t => some t
      | none => cands.head?

/-- Modelled from the spec: the successor-selection algorithm exactly as
§4.3 words it — drop the excluded version and all quarantine-tagged
records first, group the REMAINING records by version preserving their
first-seen order, take the first distinct version, and apply the
trusted-first rule inside its group. -/
def pickSuccessorSpec (l : List VRec) (excl : String) : Option VRec :=
  let remaining := l.filter
    (fun v => !decide (v.version = excl) && !decide (v.tag = QUARANTINE_TAG))
  match remaining with
  | [] => none
  | first :: _ =>
    let group := remaining.filter (fun v => decide (v.version = first.version))
    match group.find? (fun v => decide (v.release_status = TRUSTED)) with
    | some t => some t
    | none => some first

/-- The amended successor description: as `pickSuccessorSpec`, except that
the scan order of distinct versions is taken over all records other than
the excluded version — a quarantine-tagged record still marks the
first-seen position of its version — and the first version that has at
least one remaining (non-quarantined) record is selected. -/
def pickSuccessorAmended (l : List VRec) (excl : String) : Option VRec :=
  let remaining := survivors l excl
  let scanOrder := (l.filter (fun v => !decide (v.version = excl))).map
    (fun v => v.version)
  match scanOrder.find? (fun ver => remaining.any (fun r => decide (r.version = ver))) with
  | none => none
  | some ver =>
    let group := remaining.filter (fun r => decide (r.version = ver))
    match group.find? (fun r => decide (r.release_status = TRUSTED)) with
    | some t => some t
    | none => group.head?

/-! ### The rollback orchestrator

Source: `backup_tag_then_patch` and `rollback_in_prod`.  The registry
client is an external collaborator; a `ClientBehavior` records what each
of its calls would return during one invocation (`none` standing for a
raised exception on the best-effort stage queries, `rollbackOk := false`
for a raised exception from the mandatory rollback call).  The
orchestrator is rendered as the list of observable events it produces —
registry calls and printed lines — together with the error it raises,
if any. -/

/-- The behaviour of the external registry client during one run.
`stageBefore`/`stageAfter` model `get_application_version`: `none` means
the call raises; `some st` means it succeeds and `st` is the optional
`current_stage` field of the response (`get("current_stage", "")`). -/
structure ClientBehavior where
  versionsResp : List RawRec
  stageBefore : Option (Option String)
  stageAfter : Option (Option String)
  rollbackOk : Bool
deriving DecidableEq, Repr

/-- An observable event of one orchestrator run. -/
inductive Event where
  | print (line : String)
  | callList (app_key : String)
  | callGetVersion (app_key version : String)
  | callPatch (app_key version : String) (tag : Option String)
      (properties : List (String × List String))
  | callRollback (app_key version from_stage : String)
deriving DecidableEq, Repr

/-- The dictionary comprehension `{v["version"]: v for v in prod_versions}`:
a later record with the same version overwrites an earlier one. -/
def by_version (l : List VRec) : String → Option VRec :=
  l.foldl (fun d v => fun k => if k = v.version then some v else d k) (fun _ => none)

/-- `backup_tag_then_patch`: under dry-run only a log line; otherwise one
PATCH call whose body sets the new tag and assigns the single backup
property `{backup_prop_key: [current_tag]}`. -/
def backup_tag_then_patch (app_key version backup_prop_key new_tag current_tag : String)
    (dry_run : Bool) : List Event :=
  if dry_run then
    [Event.print ("[DRY-RUN] PATCH backup+tag: app=" ++ app_key ++ " version=" ++ version
      ++ " props=\x7b\x27" ++ backup_prop_key ++ "\x27: [\x27" ++ current_tag
      ++ "\x27]\x7d tag=" ++ new_tag)]
  else
    [Event.callPatch app_key version (some new_tag) [(backup_prop_key, [current_tag])]]

/-- The pre-rollback stage report of `rollback_in_prod`: a best-effort
`get_application_version` whose failure is swallowed, falling back to
the assumed stage `PROD`. -/
def evStageBefore (cb : ClientBehavior) (app_key target_version : String) : List Event :=
  [Event.callGetVersion app_key target_version] ++
    match cb.stageBefore with
    | some st => [Event.print ("WORKFLOW_STAGE_BEFORE=" ++ st.getD "")]
    | none => [Event.print ("WORKFLOW_STAGE_BEFORE=PROD")]

/-- The mandatory rollback call of `rollback_in_prod`: skipped (logged
only) under dry-run; otherwise issued, and its failure re-raised as a
fatal `RuntimeError`. -/
def evRollback (cb : ClientBehavior) (app_key target_version : String) (dry_run : Bool) :
    List Event × Option String :=
  let from_stage := "PROD"
  if dry_run then
    ([Event.print ("[DRY-RUN] Would call AppTrust rollback API: POST /applications/"
        ++ app_key ++ "/versions/" ++ target_version
        ++ "/rollback with body \x7bfrom_stage: " ++ from_stage ++ "\x7d")], none)
  else
    let pr := Event.print ("Calling AppTrust endpoint: POST /applications/" ++ app_key
      ++ "/versions/" ++ target_version ++ "/rollback with body \x7bfrom_stage: "
      ++ from_stage ++ "\x7d")
    if cb.rollbackOk then
      ([pr, Event.callRollback app_key target_version from_stage,
        Event.print ("Invoked AppTrust rollback for " ++ app_key ++ "@" ++ target_version
          ++ " from " ++ from_stage)], none)
    else
      ([pr, Event.callRollback app_key target_version from_stage],
       some ("AppTrust rollback API call failed"))

/-- The post-rollback stage report of `rollback_in_prod`: best-effort
query; on failure, walk the hard-coded stage lifecycle list and report
the entry just before `"PROD"` (or `UNASSIGNED` when `"PROD"` is absent
or first — `list.index` raising is the inner `except`). -/
def evStageAfter (cb : ClientBehavior) (app_key target_version : String) : List Event :=
  [Event.callGetVersion app_key target_version] ++
    match cb.stageAfter with
    | some st => [Event.print ("WORKFLOW_STAGE_AFTER=" ++ st.getD "")]
    | none =>
      let stages := ["UNASSIGNED", "bookverse-DEV", "bookverse-QA", "bookverse-STAGING", "PROD"]
      match stages.indexOf? ("PROD") with
      | some idx =>
        if 0 < idx then [Event.print ("WORKFLOW_STAGE_AFTER=" ++ stages.getD (idx - 1) "")]
        else [Event.print ("WORKFLOW_STAGE_AFTER=UNASSIGNED")]
      | none => [Event.print ("WORKFLOW_STAGE_AFTER=UNASSIGNED")]

/-- `rollback_in_prod`: fetch and normalize the eligible PROD set, resolve
the target through the version dictionary (fatal `RuntimeError` when
absent), report the stage, perform the mandatory rollback, report the
stage again, quarantine the target with backup, and — when the target
held `latest` — reassign `latest` to the selected successor with backup.
The first component is the event trace, the second the raised error. -/
def rollback_in_prod (cb : ClientBehavior) (app_key target_version : String)
    (dry_run : Bool) : List Event × Option String :=
  let prod_versions := get_prod_versions cb.versionsResp
  let evList : List Event := [Event.callList app_key]
  match by_version prod_versions target_version with
  | none => (evList, some ("Target version not found in PROD set: " ++ target_version))
  | some target =>
    let r := evRollback cb app_key target_version dry_run
    match r.2 with
    | some err => (evList ++ evStageBefore cb app_key target_version ++ r.1, some err)
    | none =>
      let evPre := evList ++ evStageBefore cb app_key target_version ++ r.1
        ++ evStageAfter cb app_key target_version
      let current_tag := target.tag
      let evQ := backup_tag_then_patch app_key target_version BACKUP_BEFORE_QUARANTINE
        QUARANTINE_TAG current_tag dry_run
      if current_tag = LATEST_TAG then
        match pick_next_latest prod_versions target_version with
        | none =>
          (evPre ++ evQ ++ [Event.print
            ("No successor found for latest; system will have no \x27latest\x27 until next promote.")],
           none)
        | some next_candidate =>
          let cand_ver := next_candidate.version
          let cand_tag := next_candidate.tag
          let evL := backup_tag_then_patch app_key cand_ver BACKUP_BEFORE_LATEST
            LATEST_TAG cand_tag dry_run
          (evPre ++ evQ ++ evL ++ [Event.print ("Reassigned latest to " ++ cand_ver)], none)
      else
        (evPre ++ evQ ++ [Event.print
          ("Rolled back non-latest version; \x27latest\x27 unchanged.")], none)

/-! ### Auxiliary definitions for the verification -/

/-- Structural form of the prerelease loop-plus-length-comparison: heads
are compared by `identStep`, equality continues, exhaustion is decided
by which list ran out first. -/
def seqCmp : List String → List String → Int
  | [], [] => 0
  | [], _ :: _ => -1
  | _ :: _, [] => 1
  | x :: p, y :: q => if identStep x y = 0 then seqCmp p q else identStep x y

/-- The property of prerelease identifiers guaranteed by `SEMVER_RE`
that the comparator's equality analysis relies on: an all-digit
identifier has no superfluous leading zero. -/
def ValidIdent (s : String) : Prop :=
  pyIsDigit s = true → (s = "0" ∨ s.data.head? ≠ some '0')

/-- All prerelease identifiers of a version are valid. -/
def ValidSemVer (v : SemVer) : Prop := ∀ s ∈ v.prerelease, ValidIdent s

/-- The order used by the stable descending sort in
`sort_versions_by_semver_desc`: `a` may precede `b` unless `a` is
strictly below `b`. -/
def pairLe (a b : SemVer × String) : Prop := ¬ SemVer.lt a.1 b.1

instance : DecidableRel pairLe := fun a b => by unfold pairLe; infer_instance

/-- The order used by the stable ascending key sort in
`get_prod_versions`. -/
def recLe (order : List String) (a b : VRec) : Prop :=
  sortKey order a ≤ sortKey order b

instance : DecidableRel (recLe order) := fun a b => by unfold recLe; infer_instance

/-- The descending-precedence relation on version strings used to state
sortedness: whenever both strings parse, the first is not below the
second. -/
def DescStr (a b : String) : Prop :=
  ∀ x y, SemVer.parse a = some x → SemVer.parse b = some y → 0 ≤ compare_semver x y

/-- A record whose version string parses. -/
def parseableRec (r : VRec) : Bool := (SemVer.parse r.version).isSome

/-- The stage value printed on the `WORKFLOW_STAGE_BEFORE` line. -/
def stageBeforeVal (cb : ClientBehavior) : String :=
  match cb.stageBefore with
  | some st => st.getD ""
  | none => "PROD"

/-- The stage value printed on the `WORKFLOW_STAGE_AFTER` line. -/
def stageAfterVal (cb : ClientBehavior) : String :=
  match cb.stageAfter with
  | some st => st.getD ""
  | none => "bookverse-STAGING"

/-- The §8 successor fixture list. -/
def fixtureList : List VRec :=
  [⟨"2.0.0", "latest", "TRUSTED_RELEASE"⟩,
   ⟨"1.9.0", "", "RELEASED"⟩,
   ⟨"1.9.0", "quarantine", "TRUSTED_RELEASE"⟩]

/-- A list on which the selector's scan order differs from the
spec-worded algorithm: the quarantined first row of `2.0.0` still marks
the first-seen position of that version. -/
def cexList : List VRec :=
  [⟨"2.0.0", "quarantine", "RELEASED"⟩,
   ⟨"1.9.0", "", "RELEASED"⟩,
   ⟨"2.0.0", "", "RELEASED"⟩]

/-- A concrete client behaviour under which a non-dry run overwrites both
the target tag (to quarantine) and the latest tag (to the successor). -/
def cbC1 : ClientBehavior :=
  ⟨[⟨"2.0.0", some "latest", "TRUSTED_RELEASE"⟩,
    ⟨"1.9.0", some "", "RELEASED"⟩],
   some (some "PROD"), some (some "PROD"), true⟩

/-- A concrete client behaviour whose post-rollback stage query fails
(the pre-rollback one succeeds). -/
def cbC8 : ClientBehavior :=
  ⟨[⟨"1.0.0", some "", "RELEASED"⟩], some (some "PROD"), none, true⟩

/-- A concrete client behaviour listing duplicate records of the target
version with differing tags: the duplicate that comes last in view order
carries `latest`. -/
def cbC10 : ClientBehavior :=
  ⟨[⟨"2.0.0", some "", "RELEASED"⟩,
    ⟨"2.0.0", some "latest", "TRUSTED_RELEASE"⟩,
    ⟨"1.9.0", some "", "RELEASED"⟩],
   some (some "PROD"), some (some "PROD"), true⟩

/-! ## Lemmas: decimal digit strings -/

theorem digit_toNat {c : Char} (h : c.isDigit = true) : 48 ≤ c.toNat ∧ c.toNat ≤ 57 := by
  simp [Char.isDigit] at h
  exact h

theorem digitVal_le_nine {c : Char} (h : c.isDigit = true) : digitVal c ≤ 9 := by
  have := digit_toNat h
  unfold digitVal
  omega

theorem char_eq_of_toNat_eq {c d : Char} (h : c.toNat = d.toNat) : c = d :=
  Char.ext (UInt32.ext h)

theorem digitVal_pos {c : Char} (h : c.isDigit = true) (h0 : c ≠ '0') : 1 ≤ digitVal c := by
  have hb := digit_toNat h
  by_contra hlt
  have h48 : c.toNat = 48 := by unfold digitVal at hlt; omega
  exact h0 (char_eq_of_toNat_eq h48)

theorem digitVal_inj {c d : Char} (hc : c.isDigit = true) (hd : d.isDigit = true)
    (h : digitVal c = digitVal d) : c = d := by
  have h1 := digit_toNat hc
  have h2 := digit_toNat hd
  apply char_eq_of_toNat_eq
  unfold digitVal at h
  omega

theorem digitsVal_from (l : List Char) : ∀ a : Nat,
    l.foldl (fun a c => 10 * a + digitVal c) a = a * 10 ^ l.length + digitsVal l := by
  induction l with
  | nil => intro a; simp [digitsVal]
  | cons c l ih =>
    intro a
    have hcons : digitsVal (c :: l) = digitVal c * 10 ^ l.length + digitsVal l := by
      simp only [digitsVal, List.foldl_cons]
      rw [show 10 * 0 + digitVal c = digitVal c by omega, ih (digitVal c)]
      simp [digitsVal]
    simp only [List.foldl_cons, List.length_cons]
    rw [ih (10 * a + digitVal c), hcons, pow_succ]
    ring

theorem digitsVal_cons (c : Char) (l : List Char) :
    digitsVal (c :: l) = digitVal c * 10 ^ l.length + digitsVal l := by
  simp only [digitsVal, List.foldl_cons]
  rw [show 10 * 0 + digitVal c = digitVal c by omega, digitsVal_from l (digitVal c)]
  simp [digitsVal]

theorem digitsVal_lt (l : List Char) (h : ∀ c ∈ l, c.isDigit = true) :
    digitsVal l < 10 ^ l.length := by
  induction l with
  | nil => simp [digitsVal]
  | cons c l ih =>
    have hd : digitVal c ≤ 9 := digitVal_le_nine (h c (by simp))
    have ht : digitsVal l < 10 ^ l.length := ih (fun x hx => h x (by simp [hx]))
    rw [digitsVal_cons, List.length_cons, pow_succ]
    nlinarith

theorem digitsVal_ge (c : Char) (l : List Char) (hc : c.isDigit = true) (h0 : c ≠ '0') :
    10 ^ l.length ≤ digitsVal (c :: l) := by
  have h1 : 1 ≤ digitVal c := digitVal_pos hc h0
  rw [digitsVal_cons]
  calc 10 ^ l.length = 1 * 10 ^ l.length := by ring
    _ ≤ digitVal c * 10 ^ l.length := Nat.mul_le_mul_right _ h1
    _ ≤ digitVal c * 10 ^ l.length + digitsVal l := Nat.le_add_right _ _

theorem digits_length_eq (l₁ l₂ : List Char)
    (h₁ : ∀ c ∈ l₁, c.isDigit = true) (h₂ : ∀ c ∈ l₂, c.isDigit = true)
    (z₁ : l₁ = ['0'] ∨ l₁.head? ≠ some '0') (z₂ : l₂ = ['0'] ∨ l₂.head? ≠ some '0')
    (n₁ : l₁ ≠ []) (n₂ : l₂ ≠ [])
    (hv : digitsVal l₁ = digitsVal l₂) : l₁.length = l₂.length := by
  match l₁, l₂ with
  | c₁ :: t₁, c₂ :: t₂ =>
    by_cases e₁ : c₁ = '0'
    · have hl₁ : c₁ :: t₁ = ['0'] := by
        rcases z₁ with h | h
        · exact h
        · exact absurd (by simp [e₁]) h
      have hv0 : digitsVal (c₁ :: t₁) = 0 := by
        rw [hl₁]; simp [digitsVal, digitVal]
      by_cases e₂ : c₂ = '0'
      · have hl₂ : c₂ :: t₂ = ['0'] := by
          rcases z₂ with h | h
          · exact h
          · exact absurd (by simp [e₂]) h
        rw [hl₁, hl₂]
      · have := digitsVal_ge c₂ t₂ (h₂ c₂ (by simp)) e₂
        have hp : 0 < 10 ^ t₂.length := Nat.pos_pow_of_pos _ (by omega)
        omega
    · by_cases e₂ : c₂ = '0'
      · have hl₂ : c₂ :: t₂ = ['0'] := by
          rcases z₂ with h | h
          · exact h
          · exact absurd (by simp [e₂]) h
        have hv0 : digitsVal (c₂ :: t₂) = 0 := by
          rw [hl₂]; simp [digitsVal, digitVal]
        have := digitsVal_ge c₁ t₁ (h₁ c₁ (by simp)) e₁
        have hp : 0 < 10 ^ t₁.length := Nat.pos_pow_of_pos _ (by omega)
        omega
      · -- both without leading zero: lengths must agree
        rcases Nat.lt_trichotomy t₁.length t₂.length with hlt | heq | hgt
        · have ha : digitsVal (c₁ :: t₁) < 10 ^ (c₁ :: t₁).length :=
            digitsVal_lt _ h₁
          have hb := digitsVal_ge c₂ t₂ (h₂ c₂ (by simp)) e₂
          have hm : 10 ^ (c₁ :: t₁).length ≤ 10 ^ t₂.length := by
            apply Nat.pow_le_pow_right (by omega)
            simpa using hlt
          omega
        · simpa using heq
        · have ha : digitsVal (c₂ :: t₂) < 10 ^ (c₂ :: t₂).length :=
            digitsVal_lt _ h₂
          have hb := digitsVal_ge c₁ t₁ (h₁ c₁ (by simp)) e₁
          have hm : 10 ^ (c₂ :: t₂).length ≤ 10 ^ t₁.length := by
            apply Nat.pow_le_pow_right (by omega)
            simpa using hgt
          omega

theorem digits_inj_of_length (l₁ : List Char) : ∀ l₂ : List Char,
    (∀ c ∈ l₁, c.isDigit = true) → (∀ c ∈ l₂, c.isDigit = true) →
    l₁.length = l₂.length → digitsVal l₁ = digitsVal l₂ → l₁ = l₂ := by
  induction l₁ with
  | nil =>
    intro l₂ _ _ hlen _
    cases l₂ with
    | nil => rfl
    | cons c t => simp at hlen
  | cons c₁ t₁ ih =>
    intro l₂ h₁ h₂ hlen hv
    cases l₂ with
    | nil => simp at hlen
    | cons c₂ t₂ =>
      have hlt : t₁.length = t₂.length := by simpa using hlen
      rw [digitsVal_cons, digitsVal_cons, hlt] at hv
      have b₁ : digitsVal t₁ < 10 ^ t₂.length := by
        rw [← hlt]; exact digitsVal_lt _ (fun x hx => h₁ x (by simp [hx]))
      have b₂ : digitsVal t₂ < 10 ^ t₂.length :=
        digitsVal_lt _ (fun x hx => h₂ x (by simp [hx]))
      have hd : digitVal c₁ = digitVal c₂ := by
        rcases Nat.lt_trichotomy (digitVal c₁) (digitVal c₂) with h | h | h
        · nlinarith
        · exact h
        · nlinarith
      have hveq : digitsVal t₁ = digitsVal t₂ := by
        rw [hd] at hv
        exact Nat.add_left_cancel hv
      have hc : c₁ = c₂ := digitVal_inj (h₁ c₁ (by simp)) (h₂ c₂ (by simp)) hd
      rw [hc, ih t₂ (fun x hx => h₁ x (by simp [hx])) (fun x hx => h₂ x (by simp [hx])) hlt hveq]

/-- Two all-digit identifier strings without superfluous leading zeros
and with the same numeric value are equal. -/
theorem pyDigit_string_inj {x y : String} (dx : pyIsDigit x = true) (dy : pyIsDigit y = true)
    (vx : ValidIdent x) (vy : ValidIdent y) (hv : pyInt x = pyInt y) : x = y := by
  have hx := vx dx
  have hy := vy dy
  unfold pyIsDigit at dx dy
  rw [Bool.and_eq_true] at dx dy
  have hall₁ : ∀ c ∈ x.data, c.isDigit = true := List.all_eq_true.mp dx.2
  have hall₂ : ∀ c ∈ y.data, c.isDigit = true := List.all_eq_true.mp dy.2
  have hx' : x.data = ['0'] ∨ x.data.head? ≠ some '0' := by
    rcases hx with h | h
    · left; rw [h]
    · right; exact h
  have hy' : y.data = ['0'] ∨ y.data.head? ≠ some '0' := by
    rcases hy with h | h
    · left; rw [h]
    · right; exact h
  have hne₁ : x.data ≠ [] := by
    intro h
    have := dx.1
    rw [h] at this
    simp at this
  have hne₂ : y.data ≠ [] := by
    intro h
    have := dy.1
    rw [h] at this
    simp at this
  have hlen : x.data.length = y.data.length :=
    digits_length_eq _ _ hall₁ hall₂ hx' hy' hne₁ hne₂ hv
  have hdata : x.data = y.data :=
    digits_inj_of_length _ _ hall₁ hall₂ hlen hv
  calc x = String.mk x.data := rfl
    _ = String.mk y.data := by rw [hdata]
    _ = y := rfl

/-! ## Lemmas: the identifier comparison step -/

theorem identStep_self (x : String) : identStep x x = 0 := by
  simp [identStep]

theorem identStep_cases (x y : String) :
    identStep x y = -1 ∨ identStep x y = 0 ∨ identStep x y = 1 := by
  unfold identStep
  split_ifs <;> simp

theorem digit_ne {x y : String} (hdx : pyIsDigit x = true) (hdy : pyIsDigit y = false) :
    x ≠ y := by
  intro h
  rw [h] at hdx
  rw [hdx] at hdy
  cases hdy

theorem identStep_eq_dd {x y : String} (hdx : pyIsDigit x = true) (hdy : pyIsDigit y = true)
    (hxy : x ≠ y) :
    identStep x y = (if pyInt x < pyInt y then -1 else if pyInt y < pyInt x then 1 else 0) := by
  unfold identStep
  rw [if_neg hxy, hdx, hdy]
  rfl

theorem identStep_eq_dn {x y : String} (hdx : pyIsDigit x = true) (hdy : pyIsDigit y = false) :
    identStep x y = -1 := by
  unfold identStep
  rw [if_neg (digit_ne hdx hdy), hdx, hdy]
  rfl

theorem identStep_eq_nd {x y : String} (hdx : pyIsDigit x = false) (hdy : pyIsDigit y = true) :
    identStep x y = 1 := by
  unfold identStep
  rw [if_neg (Ne.symm (digit_ne hdy hdx)), hdx, hdy]
  rfl

theorem string_data_inj {x y : String} (h : x.data = y.data) : x = y := by
  calc x = String.mk x.data := rfl
    _ = String.mk y.data := by rw [h]
    _ = y := rfl

theorem identStep_eq_nn {x y : String} (hdx : pyIsDigit x = false) (hdy : pyIsDigit y = false)
    (hxy : x ≠ y) :
    identStep x y = (if x.data < y.data then -1 else 1) := by
  unfold identStep
  rw [if_neg hxy, hdx, hdy]
  rfl

theorem identStep_neg_iff (x y : String) :
    identStep x y = -1 ↔
      ((pyIsDigit x = true ∧ pyIsDigit y = true ∧ pyInt x < pyInt y) ∨
       (pyIsDigit x = true ∧ pyIsDigit y = false) ∨
       (pyIsDigit x = false ∧ pyIsDigit y = false ∧ x.data < y.data)) := by
  by_cases hxy : x = y
  · subst hxy
    rw [identStep_self]
    cases hdx : pyIsDigit x <;> simp [hdx]
  · cases hdx : pyIsDigit x <;> cases hdy : pyIsDigit y
    · rw [identStep_eq_nn hdx hdy hxy]
      rcases lt_trichotomy x.data y.data with h | h | h
      · rw [if_pos h]; simp [h]
      · exact absurd (string_data_inj h) hxy
      · rw [if_neg (asymm h)]
        simp [hdx, hdy]
        exact le_of_lt h
    · rw [identStep_eq_nd hdx hdy]
      simp [hdx, hdy]
    · rw [identStep_eq_dn hdx hdy]
      simp [hdx, hdy]
    · rw [identStep_eq_dd hdx hdy hxy]
      split_ifs with h1 h2 <;> simp [hdx, hdy] <;> omega

theorem identStep_zero_iff (x y : String) :
    identStep x y = 0 ↔
      (x = y ∨ (pyIsDigit x = true ∧ pyIsDigit y = true ∧ pyInt x = pyInt y)) := by
  by_cases hxy : x = y
  · subst hxy
    rw [identStep_self]
    simp
  · cases hdx : pyIsDigit x <;> cases hdy : pyIsDigit y
    · rw [identStep_eq_nn hdx hdy hxy]
      split_ifs with h1 <;> simp [hxy, hdx]
    · rw [identStep_eq_nd hdx hdy]
      simp [hxy, hdx]
    · rw [identStep_eq_dn hdx hdy]
      simp [hxy, hdy]
    · rw [identStep_eq_dd hdx hdy hxy]
      split_ifs with h1 h2 <;> simp [hxy, hdx, hdy] <;> omega

theorem identStep_pos_iff (x y : String) :
    identStep x y = 1 ↔
      ((pyIsDigit x = true ∧ pyIsDigit y = true ∧ pyInt y < pyInt x) ∨
       (pyIsDigit y = true ∧ pyIsDigit x = false) ∨
       (pyIsDigit x = false ∧ pyIsDigit y = false ∧ y.data < x.data)) := by
  by_cases hxy : x = y
  · subst hxy
    rw [identStep_self]
    cases hdx : pyIsDigit x <;> simp [hdx]
  · cases hdx : pyIsDigit x <;> cases hdy : pyIsDigit y
    · rw [identStep_eq_nn hdx hdy hxy]
      rcases lt_trichotomy x.data y.data with h | h | h
      · rw [if_pos h]
        simp [hdx, hdy]
        exact le_of_lt h
      · exact absurd (string_data_inj h) hxy
      · rw [if_neg (asymm h)]
        simp [hdx, hdy, h]
    · rw [identStep_eq_nd hdx hdy]
      simp [hdx, hdy]
    · rw [identStep_eq_dn hdx hdy]
      simp [hdx, hdy]
    · rw [identStep_eq_dd hdx hdy hxy]
      split_ifs with h1 h2 <;> simp [hdx, hdy] <;> omega

theorem identStep_antisym (x y : String) : identStep y x = -identStep x y := by
  rcases identStep_cases x y with h | h | h <;> rw [h] <;> norm_num
  · rw [identStep_pos_iff]
    have := (identStep_neg_iff x y).mp h
    tauto
  · rw [identStep_zero_iff]
    have := (identStep_zero_iff x y).mp h
    rcases this with rfl | hd
    · left; rfl
    · right; exact ⟨hd.2.1, hd.1, hd.2.2.symm⟩
  · rw [identStep_neg_iff]
    have := (identStep_pos_iff x y).mp h
    tauto

theorem identStep_congr_left {x y : String} (h : identStep x y = 0) (z : String) :
    identStep x z = identStep y z := by
  rcases (identStep_zero_iff x y).mp h with rfl | ⟨dx, dy, hv⟩
  · rfl
  · have e1 : (identStep x z = -1) ↔ (identStep y z = -1) := by
      rw [identStep_neg_iff, identStep_neg_iff, dx, dy, hv]
      simp
    have e2 : (identStep x z = 1) ↔ (identStep y z = 1) := by
      rw [identStep_pos_iff, identStep_pos_iff, dx, dy, hv]
      simp
    rcases identStep_cases x z with h1 | h1 | h1
    · rw [h1]
      exact (e1.mp h1).symm
    · rcases identStep_cases y z with h2 | h2 | h2
      · exact absurd (e1.mpr h2) (by rw [h1]; norm_num)
      · rw [h1, h2]
      · exact absurd (e2.mpr h2) (by rw [h1]; norm_num)
    · rw [h1]
      exact (e2.mp h1).symm

theorem identStep_congr_right {y z : String} (h : identStep y z = 0) (x : String) :
    identStep x y = identStep x z := by
  have a1 : identStep y x = -identStep x y := identStep_antisym x y
  have a2 : identStep z x = -identStep x z := identStep_antisym x z
  have hc : identStep y x = identStep z x := identStep_congr_left h x
  omega

theorem identStep_trans_neg {x y z : String} (h1 : identStep x y = -1)
    (h2 : identStep y z = -1) : identStep x z = -1 := by
  rw [identStep_neg_iff] at h1 h2 ⊢
  rcases h1 with ⟨dx, dy, v1⟩ | ⟨dx, dy⟩ | ⟨dx, dy, sxy⟩ <;>
    rcases h2 with ⟨dy', dz, v2⟩ | ⟨dy', dz⟩ | ⟨dy', dz, syz⟩
  · exact Or.inl ⟨dx, dz, lt_trans v1 v2⟩
  · exact Or.inr (Or.inl ⟨dx, dz⟩)
  · rw [dy] at dy'; cases dy'
  · rw [dy] at dy'; cases dy'
  · rw [dy] at dy'; cases dy'
  · exact Or.inr (Or.inl ⟨dx, dz⟩)
  · rw [dy'] at dy; cases dy
  · rw [dy'] at dy; cases dy
  · exact Or.inr (Or.inr ⟨dx, dz, lt_trans sxy syz⟩)

/-! ## Lemmas: the prerelease sequence comparison -/

theorem seqCmp_cases (p : List String) : ∀ q : List String,
    seqCmp p q = -1 ∨ seqCmp p q = 0 ∨ seqCmp p q = 1 := by
  induction p with
  | nil => intro q; cases q <;> simp [seqCmp]
  | cons x p ih =>
    intro q
    cases q with
    | nil => simp [seqCmp]
    | cons y q =>
      by_cases hs : identStep x y = 0
      · simpa [seqCmp, hs] using ih q
      · rcases identStep_cases x y with h | h | h
        · simp [seqCmp, hs, h]
        · exact absurd h hs
        · simp [seqCmp, hs, h]

theorem seqCmp_self (p : List String) : seqCmp p p = 0 := by
  induction p with
  | nil => rfl
  | cons x p ih => simp [seqCmp, identStep_self, ih]

theorem loop_zip_eq_seqCmp (p : List String) : ∀ q : List String,
    (match preCmpLoop (p.zip q) with
     | some r => r
     | none =>
       if p.length ≠ q.length then (if p.length < q.length then (-1 : Int) else 1)
       else 0) = seqCmp p q := by
  induction p with
  | nil =>
    intro q
    cases q <;> simp [preCmpLoop, seqCmp]
  | cons x p ih =>
    intro q
    cases q with
    | nil => simp [preCmpLoop, seqCmp]
    | cons y q =>
      by_cases hs : identStep x y = 0
      · have := ih q
        simpa [preCmpLoop, seqCmp, hs, Nat.succ_lt_succ_iff] using this
      · simp [preCmpLoop, seqCmp, hs]

theorem prCmp_eq (p q : List String) :
    prCmp p q =
      (match p, q with
       | [], [] => 0
       | [], _ :: _ => 1
       | _ :: _, [] => -1
       | _ :: _, _ :: _ => seqCmp p q) := by
  cases p with
  | nil =>
    cases q with
    | nil => rfl
    | cons y q => rfl
  | cons x p =>
    cases q with
    | nil => rfl
    | cons y q =>
      show (match preCmpLoop ((x :: p).zip (y :: q)) with
            | some r => r
            | none =>
              if (x :: p).length ≠ (y :: q).length then
                (if (x :: p).length < (y :: q).length then (-1 : Int) else 1)
              else 0) = _
      exact loop_zip_eq_seqCmp (x :: p) (y :: q)

theorem seqCmp_antisym (p : List String) : ∀ q : List String,
    seqCmp q p = -seqCmp p q := by
  induction p with
  | nil => intro q; cases q <;> simp [seqCmp]
  | cons x p ih =>
    intro q
    cases q with
    | nil => simp [seqCmp]
    | cons y q =>
      by_cases hs : identStep x y = 0
      · have hs' : identStep y x = 0 := by rw [identStep_antisym x y, hs]; rfl
        simpa [seqCmp, hs, hs'] using ih q
      · have hs' : identStep y x ≠ 0 := by
          rw [identStep_antisym x y]
          omega
        simp [seqCmp, hs, hs', identStep_antisym x y]

theorem seqCmp_trans_neg (p : List String) : ∀ q r : List String,
    seqCmp p q = -1 → seqCmp q r = -1 → seqCmp p r = -1 := by
  induction p with
  | nil =>
    intro q r h1 h2
    cases q with
    | nil => cases h1
    | cons y q =>
      cases r with
      | nil => cases h2
      | cons z r => rfl
  | cons x p ih =>
    intro q r h1 h2
    cases q with
    | nil => cases h1
    | cons y q =>
      cases r with
      | nil => cases h2
      | cons z r =>
        by_cases s1 : identStep x y = 0
        · rw [seqCmp, if_pos s1] at h1
          by_cases s2 : identStep y z = 0
          · rw [seqCmp, if_pos s2] at h2
            have sxz : identStep x z = 0 := by
              rw [identStep_congr_left s1, s2]
            rw [seqCmp, if_pos sxz]
            exact ih q r h1 h2
          · rw [seqCmp, if_neg s2] at h2
            have sxz : identStep x z = -1 := by
              rw [identStep_congr_left s1, h2]
            rw [seqCmp, if_neg (by rw [sxz]; norm_num), sxz]
        · rw [seqCmp, if_neg s1] at h1
          by_cases s2 : identStep y z = 0
          · have sxz : identStep x z = -1 := by
              rw [← identStep_congr_right s2, h1]
            rw [seqCmp, if_neg (by rw [sxz]; norm_num), sxz]
          · rw [seqCmp, if_neg s2] at h2
            have sxz : identStep x z = -1 := identStep_trans_neg h1 h2
            rw [seqCmp, if_neg (by rw [sxz]; norm_num), sxz]

theorem seqCmp_zero_valid (p : List String) : ∀ q : List String,
    seqCmp p q = 0 → (∀ s ∈ p, ValidIdent s) → (∀ s ∈ q, ValidIdent s) → p = q := by
  induction p with
  | nil =>
    intro q h _ _
    cases q with
    | nil => rfl
    | cons y q => cases h
  | cons x p ih =>
    intro q h hp hq
    cases q with
    | nil => cases h
    | cons y q =>
      by_cases hs : identStep x y = 0
      · rw [seqCmp, if_pos hs] at h
        have hxy : x = y := by
          rcases (identStep_zero_iff x y).mp hs with h' | ⟨dx, dy, hv⟩
          · exact h'
          · exact pyDigit_string_inj dx dy (hp x (by simp)) (hq y (by simp)) hv
        rw [hxy, ih q h (fun s hs' => hp s (by simp [hs'])) (fun s hs' => hq s (by simp [hs']))]
      · rw [seqCmp, if_neg hs] at h
        exact absurd h hs

theorem prCmp_cases (p q : List String) : prCmp p q = -1 ∨ prCmp p q = 0 ∨ prCmp p q = 1 := by
  rw [prCmp_eq]
  cases p <;> cases q <;> simp
  exact seqCmp_cases _ _

theorem prCmp_self (p : List String) : prCmp p p = 0 := by
  rw [prCmp_eq]
  cases p <;> simp
  exact seqCmp_self _

theorem prCmp_antisym (p q : List String) : prCmp q p = -prCmp p q := by
  rw [prCmp_eq, prCmp_eq]
  cases p <;> cases q <;> simp
  exact seqCmp_antisym _ _

theorem prCmp_trans_neg {p q r : List String} (h1 : prCmp p q = -1) (h2 : prCmp q r = -1) :
    prCmp p r = -1 := by
  rw [prCmp_eq] at h1 h2 ⊢
  cases p with
  | nil => cases q <;> cases h1
  | cons x p =>
    cases q with
    | nil => cases r <;> cases h2
    | cons y q =>
      cases r with
      | nil => rfl
      | cons z r => exact seqCmp_trans_neg _ _ _ h1 h2

theorem prCmp_zero_valid {p q : List String} (h : prCmp p q = 0)
    (hp : ∀ s ∈ p, ValidIdent s) (hq : ∀ s ∈ q, ValidIdent s) : p = q := by
  rw [prCmp_eq] at h
  cases p with
  | nil =>
    cases q with
    | nil => rfl
    | cons y q => cases h
  | cons x p =>
    cases q with
    | nil => cases h
    | cons y q => exact seqCmp_zero_valid _ _ h hp hq

/-! ## Lemmas: the comparator is a strict total order -/

theorem compare_semver_cases (a b : SemVer) :
    compare_semver a b = -1 ∨ compare_semver a b = 0 ∨ compare_semver a b = 1 := by
  unfold compare_semver
  split_ifs <;> first | omega | exact prCmp_cases _ _

theorem compare_semver_antisym (a b : SemVer) :
    compare_semver b a = -compare_semver a b := by
  unfold compare_semver
  split_ifs <;> first | omega | exact prCmp_antisym _ _

theorem compare_semver_self (a : SemVer) : compare_semver a a = 0 := by
  unfold compare_semver
  split_ifs <;> first | omega | exact prCmp_self _

theorem compare_semver_neg_iff (a b : SemVer) :
    compare_semver a b = -1 ↔
      (a.major < b.major ∨
       (a.major = b.major ∧
        (a.minor < b.minor ∨
         (a.minor = b.minor ∧
          (a.patch < b.patch ∨
           (a.patch = b.patch ∧ prCmp a.prerelease b.prerelease = -1)))))) := by
  rcases prCmp_cases a.prerelease b.prerelease with hP | hP | hP <;>
    unfold compare_semver <;> rw [hP] <;> split_ifs <;>
    first
      | omega
      | (simp only [and_false, false_and, or_false, false_or, false_iff]; omega)

theorem compare_semver_trans_neg {a b c : SemVer} (h1 : compare_semver a b = -1)
    (h2 : compare_semver b c = -1) : compare_semver a c = -1 := by
  rw [compare_semver_neg_iff] at h1 h2 ⊢
  rcases h1 with hM1 | ⟨eM1, h1⟩
  · rcases h2 with hM2 | ⟨eM2, h2⟩
    · exact Or.inl (lt_trans hM1 hM2)
    · exact Or.inl (eM2 ▸ hM1)
  · rcases h2 with hM2 | ⟨eM2, h2⟩
    · exact Or.inl (eM1 ▸ hM2)
    · refine Or.inr ⟨eM1.trans eM2, ?_⟩
      rcases h1 with hm1 | ⟨em1, h1⟩
      · rcases h2 with hm2 | ⟨em2, h2⟩
        · exact Or.inl (lt_trans hm1 hm2)
        · exact Or.inl (em2 ▸ hm1)
      · rcases h2 with hm2 | ⟨em2, h2⟩
        · exact Or.inl (em1 ▸ hm2)
        · refine Or.inr ⟨em1.trans em2, ?_⟩
          rcases h1 with hp1 | ⟨ep1, h1⟩
          · rcases h2 with hp2 | ⟨ep2, h2⟩
            · exact Or.inl (lt_trans hp1 hp2)
            · exact Or.inl (ep2 ▸ hp1)
          · rcases h2 with hp2 | ⟨ep2, h2⟩
            · exact Or.inl (ep1 ▸ hp2)
            · exact Or.inr ⟨ep1.trans ep2, prCmp_trans_neg h1 h2⟩

theorem compare_semver_zero_iff {a b : SemVer} (ha : ValidSemVer a) (hb : ValidSemVer b) :
    compare_semver a b = 0 ↔
      (a.major = b.major ∧ a.minor = b.minor ∧ a.patch = b.patch ∧
       a.prerelease = b.prerelease) := by
  constructor
  · intro h
    unfold compare_semver at h
    split_ifs at h with h1 h2 h3 <;> try omega
    exact ⟨by omega, by omega, by omega, prCmp_zero_valid h ha hb⟩
  · intro ⟨h1, h2, h3, h4⟩
    unfold compare_semver
    rw [h1, h2, h3, h4]
    simp [prCmp_self]

/-! ## Lemmas: parsed versions have valid prerelease identifiers -/

theorem validPreIdent_validIdent {cs : List Char} (h : validPreIdent cs = true) :
    ValidIdent (String.mk cs) := by
  intro hd
  unfold pyIsDigit at hd
  rw [Bool.and_eq_true] at hd
  cases cs with
  | nil => cases h
  | cons c rest =>
    unfold validPreIdent at h
    rw [Bool.and_eq_true] at h
    have hdig : (c :: rest).all Char.isDigit = true := hd.2
    rw [if_pos hdig, Bool.or_eq_true, decide_eq_true_iff, decide_eq_true_iff] at h
    by_cases hc : c = '0'
    · left
      subst hc
      rcases h.2 with h' | h'
      · exact absurd rfl h'
      · rw [h']
    · right
      intro he
      exact hc (Option.some_injective _ he)

theorem matchSemverRE_prerelease_valid {s : String} {mj mi pa : Nat} {pre : List String}
    (hm : matchSemverRE s = some (mj, mi, pa, pre)) : ∀ t ∈ pre, ValidIdent t := by
  unfold matchSemverRE at hm
  dsimp only at hm
  split at hm
  · exact Option.noConfusion hm
  · split at hm
    · exact Option.noConfusion hm
    · split at hm
      · exact Option.noConfusion hm
      · split at hm
        · exact Option.noConfusion hm
        · split at hm
          · exact Option.noConfusion hm
          · split at hm
            · exact Option.noConfusion hm
            · rename_i hpre
              split at hm
              · injection hm with hm2
                rename_i prerelease hbuild
                have hpe : prerelease = pre := congrArg (fun t => t.2.2.2) hm2
                subst hpe
                split at hpre
                · injection hpre with h0
                  rw [← h0]
                  intro t ht
                  simp at ht
                · split at hpre
                  · rename_i hall
                    injection hpre with h0
                    rw [← h0]
                    intro t ht
                    rcases List.mem_map.mp ht with ⟨p, hp, rfl⟩
                    exact validPreIdent_validIdent (List.all_eq_true.mp hall p hp)
                  · exact Option.noConfusion hpre
                · exact Option.noConfusion hpre
              · exact Option.noConfusion hm

/-- Every version built by `SemVer.parse` has valid prerelease
identifiers: the grammar forbids superfluous leading zeros. -/
theorem parse_ValidSemVer {s : String} {v : SemVer} (h : SemVer.parse s = some v) :
    ValidSemVer v := by
  unfold SemVer.parse at h
  split at h
  · exact Option.noConfusion h
  · rename_i heq
    injection h with h2
    rw [← h2]
    intro t ht
    exact matchSemverRE_prerelease_valid heq t ht

/-- C6: `compare_semver` is a strict total order on valid parsed versions:
`compare(x, y) == 0` exactly when major, minor, patch and the prerelease
identifier sequence agree (the original string and build metadata are
ignored, so equal original strings are not required for equality);
the order is transitive and asymmetric, and any two versions are
comparable; the fixture chain
`1.0.0-alpha < 1.0.0-alpha.1 < 1.0.0-beta < 1.0.0` holds. -/
theorem C6_compare_semver_strict_total_order
    (sa sb sc : String) (a b c : SemVer)
    (ha : SemVer.parse sa = some a) (hb : SemVer.parse sb = some b)
    (hc : SemVer.parse sc = some c) :
    (compare_semver a b = 0 ↔
      (a.major = b.major ∧ a.minor = b.minor ∧ a.patch = b.patch ∧
       a.prerelease = b.prerelease)) ∧
    (compare_semver a b < 0 → compare_semver b c < 0 → compare_semver a c < 0) ∧
    (compare_semver a b < 0 → 0 < compare_semver b a) ∧
    (compare_semver a b < 0 ∨ compare_semver a b = 0 ∨ compare_semver b a < 0) ∧
    (SemVer.parse ("1.0.0-alpha") = some ⟨1, 0, 0, ["alpha"], "1.0.0-alpha"⟩ ∧
     SemVer.parse ("1.0.0-alpha.1") = some ⟨1, 0, 0, ["alpha", "1"], "1.0.0-alpha.1"⟩ ∧
     SemVer.parse ("1.0.0-beta") = some ⟨1, 0, 0, ["beta"], "1.0.0-beta"⟩ ∧
     SemVer.parse ("1.0.0") = some ⟨1, 0, 0, [], "1.0.0"⟩ ∧
     compare_semver ⟨1, 0, 0, ["alpha"], "1.0.0-alpha"⟩
       ⟨1, 0, 0, ["alpha", "1"], "1.0.0-alpha.1"⟩ < 0 ∧
     compare_semver ⟨1, 0, 0, ["alpha", "1"], "1.0.0-alpha.1"⟩
       ⟨1, 0, 0, ["beta"], "1.0.0-beta"⟩ < 0 ∧
     compare_semver ⟨1, 0, 0, ["beta"], "1.0.0-beta"⟩ ⟨1, 0, 0, [], "1.0.0"⟩ < 0 ∧
     SemVer.parse ("v1.0.0+build.7") = some ⟨1, 0, 0, [], "v1.0.0+build.7"⟩ ∧
     compare_semver ⟨1, 0, 0, [], "1.0.0"⟩ ⟨1, 0, 0, [], "v1.0.0+build.7"⟩ = 0) := by
  have va := parse_ValidSemVer ha
  have vb := parse_ValidSemVer hb
  have vc := parse_ValidSemVer hc
  refine ⟨compare_semver_zero_iff va vb, ?_, ?_, ?_,
    by decide, by decide, by decide, by decide, by decide, by decide, by decide,
    by decide, by decide⟩
  · intro h1 h2
    have e1 : compare_semver a b = -1 := by
      rcases compare_semver_cases a b with h | h | h <;> omega
    have e2 : compare_semver b c = -1 := by
      rcases compare_semver_cases b c with h | h | h <;> omega
    have := compare_semver_trans_neg e1 e2
    omega
  · intro h1
    have := compare_semver_antisym a b
    omega
  · rcases compare_semver_cases a b with h | h | h
    · exact Or.inl (by omega)
    · exact Or.inr (Or.inl h)
    · have := compare_semver_antisym a b
      exact Or.inr (Or.inr (by omega))

/-- Witness for C6 at concrete parsed versions. -/
theorem C6_witness :
    (SemVer.parse ("1.2.3") = some ⟨1, 2, 3, [], "1.2.3"⟩ ∧
     SemVer.parse ("2.0.0") = some ⟨2, 0, 0, [], "2.0.0"⟩) ∧
    (compare_semver ⟨1, 2, 3, [], "1.2.3"⟩ ⟨2, 0, 0, [], "2.0.0"⟩ < 0 ∨
     compare_semver ⟨1, 2, 3, [], "1.2.3"⟩ ⟨2, 0, 0, [], "2.0.0"⟩ = 0 ∨
     compare_semver ⟨2, 0, 0, [], "2.0.0"⟩ ⟨1, 2, 3, [], "1.2.3"⟩ < 0) :=
  ⟨⟨by decide, by decide⟩,
   (C6_compare_semver_strict_total_order "1.2.3" "2.0.0" "1.2.3"
      ⟨1, 2, 3, [], "1.2.3"⟩ ⟨2, 0, 0, [], "2.0.0"⟩ ⟨1, 2, 3, [], "1.2.3"⟩
      (by decide) (by decide) (by decide)).2.2.2.1⟩

/-- C7: `parse("1.2.3")` yields major 1, minor 2, patch 3 and no
prerelease; `parse("1.2.3-alpha.1")` yields the prerelease sequence
`["alpha","1"]`; `parse("1.2")` yields the no-value result;
`parse("v2.0.0")` succeeds with the leading `v` ignored; and parsing is a
total function — for every input it yields either the no-value result or
a parsed version, never an exception. -/
theorem C7_parse_behaviour :
    SemVer.parse ("1.2.3") = some ⟨1, 2, 3, [], "1.2.3"⟩ ∧
    SemVer.parse ("1.2.3-alpha.1") = some ⟨1, 2, 3, ["alpha", "1"], "1.2.3-alpha.1"⟩ ∧
    SemVer.parse ("1.2") = none ∧
    SemVer.parse ("v2.0.0") = some ⟨2, 0, 0, [], "v2.0.0"⟩ ∧
    (∀ s : String, SemVer.parse s = none ∨ ∃ v, SemVer.parse s = some v) := by
  refine ⟨by decide, by decide, by decide, by decide, ?_⟩
  intro s
  cases h : SemVer.parse s
  · exact Or.inl rfl
  · exact Or.inr ⟨_, rfl⟩

/-! ## Lemmas: precedence-equal versions compare alike (congruence) -/

theorem seqCmp_zero_congr (p : List String) : ∀ q r : List String,
    seqCmp p q = 0 → seqCmp p r = seqCmp q r := by
  induction p with
  | nil =>
    intro q r h
    cases q with
    | nil => rfl
    | cons y q => cases h
  | cons x p ih =>
    intro q r h
    cases q with
    | nil => cases h
    | cons y q =>
      rw [seqCmp] at h
      split at h
      · rename_i hs
        cases r with
        | nil => rfl
        | cons z r =>
          rw [seqCmp, seqCmp, identStep_congr_left hs]
          split
          · exact ih q r h
          · rfl
      · rename_i hs
        exact absurd h hs

theorem prCmp_zero_congr {p q : List String} (h : prCmp p q = 0) (r : List String) :
    prCmp p r = prCmp q r := by
  rw [prCmp_eq] at h
  rw [prCmp_eq, prCmp_eq]
  cases p with
  | nil =>
    cases q with
    | nil => rfl
    | cons y q => cases h
  | cons x p =>
    cases q with
    | nil => cases h
    | cons y q =>
      cases r with
      | nil => rfl
      | cons z r => exact seqCmp_zero_congr _ _ _ h

theorem compare_semver_zero_components {a b : SemVer} (h : compare_semver a b = 0) :
    a.major = b.major ∧ a.minor = b.minor ∧ a.patch = b.patch ∧
      prCmp a.prerelease b.prerelease = 0 := by
  unfold compare_semver at h
  split_ifs at h with h1 h2 h3 <;> omega

theorem compare_semver_congr_left {a b : SemVer} (h : compare_semver a b = 0)
    (c : SemVer) : compare_semver a c = compare_semver b c := by
  obtain ⟨e1, e2, e3, e4⟩ := compare_semver_zero_components h
  unfold compare_semver
  rw [e1, e2, e3, prCmp_zero_congr e4]

theorem compare_semver_congr_right {b c : SemVer} (h : compare_semver b c = 0)
    (a : SemVer) : compare_semver a b = compare_semver a c := by
  have a1 := compare_semver_antisym a b
  have a2 := compare_semver_antisym a c
  have := compare_semver_congr_left h a
  omega

/-! ## Lemmas: the descending version sort (`sort_versions_by_semver_desc`) -/

theorem pairLe_trans : ∀ a b c : SemVer × String, pairLe a b → pairLe b c → pairLe a c := by
  intro a b c h1 h2
  unfold pairLe SemVer.lt at h1 h2 ⊢
  rw [not_lt] at h1 h2 ⊢
  rcases compare_semver_cases a.1 b.1 with hab | hab | hab
  · omega
  · rw [compare_semver_congr_left hab]
    exact h2
  · rcases compare_semver_cases b.1 c.1 with hbc | hbc | hbc
    · omega
    · rw [← compare_semver_congr_right hbc]
      omega
    · have e1 : compare_semver b.1 a.1 = -1 := by
        have := compare_semver_antisym a.1 b.1
        omega
      have e2 : compare_semver c.1 b.1 = -1 := by
        have := compare_semver_antisym b.1 c.1
        omega
      have := compare_semver_trans_neg e2 e1
      have := compare_semver_antisym a.1 c.1
      omega

theorem pairLe_total : ∀ a b : SemVer × String, pairLe a b ∨ pairLe b a := by
  intro a b
  unfold pairLe SemVer.lt
  rw [not_lt, not_lt]
  have := compare_semver_antisym a.1 b.1
  rcases compare_semver_cases a.1 b.1 with h | h | h <;> omega

instance : IsTrans (SemVer × String) pairLe := ⟨pairLe_trans⟩

instance : IsTotal (SemVer × String) pairLe := ⟨pairLe_total⟩

theorem parsedPairs_mem {l : List String} {p : SemVer × String}
    (hp : p ∈ l.filterMap (fun v => (SemVer.parse v).map (fun sv => (sv, v)))) :
    SemVer.parse p.2 = some p.1 := by
  rcases List.mem_filterMap.mp hp with ⟨v, _, hv⟩
  cases hps : SemVer.parse v with
  | none => rw [hps] at hv; cases hv
  | some sv =>
    rw [hps] at hv
    injection hv with hv
    rw [← hv]
    exact hps

theorem filterMap_parse_snd (l : List String) :
    (l.filterMap (fun v => (SemVer.parse v).map (fun sv => (sv, v)))).map (fun t => t.2) =
      l.filter (fun v => (SemVer.parse v).isSome) := by
  induction l with
  | nil => rfl
  | cons v l ih =>
    cases hps : SemVer.parse v <;>
      simp [List.filterMap_cons, List.filter_cons, hps, ih]

theorem svd_eq (l : List String) :
    sort_versions_by_semver_desc l =
      (List.insertionSort pairLe
        (l.filterMap (fun v => (SemVer.parse v).map (fun sv => (sv, v))))).map
        (fun t => t.2) := rfl

theorem svd_perm (l : List String) :
    (sort_versions_by_semver_desc l).Perm (l.filter (fun v => (SemVer.parse v).isSome)) := by
  rw [svd_eq, ← filterMap_parse_snd]
  exact (List.perm_insertionSort _ _).map _

theorem svd_pairwise (l : List String) :
    (sort_versions_by_semver_desc l).Pairwise DescStr := by
  rw [svd_eq]
  rw [List.pairwise_map]
  have hs : (List.insertionSort pairLe
      (l.filterMap (fun v => (SemVer.parse v).map (fun sv => (sv, v))))).Pairwise pairLe :=
    List.sorted_insertionSort pairLe _
  refine hs.imp_of_mem ?_
  intro a b ha hb hle
  intro x y hx hy
  have hpa : SemVer.parse a.2 = some a.1 :=
    parsedPairs_mem ((List.mem_insertionSort _).mp ha)
  have hpb : SemVer.parse b.2 = some b.1 :=
    parsedPairs_mem ((List.mem_insertionSort _).mp hb)
  rw [hpa] at hx
  rw [hpb] at hy
  injection hx with hx
  injection hy with hy
  subst hx
  subst hy
  unfold pairLe SemVer.lt at hle
  omega

/-- C9: `sort_versions_by_semver_desc` silently drops every string that
fails to parse and returns the remaining strings ordered descending by
the comparator; in particular the §8 fixture evaluates as documented. -/
theorem C9_sort_versions_by_semver_desc (l : List String) :
    (sort_versions_by_semver_desc l).Perm (l.filter (fun v => (SemVer.parse v).isSome)) ∧
    (sort_versions_by_semver_desc l).Pairwise DescStr ∧
    sort_versions_by_semver_desc ["1.0.0", "2.0.0", "1.5.0", "bad-version"] =
      ["2.0.0", "1.5.0", "1.0.0"] :=
  ⟨svd_perm l, svd_pairwise l, by decide⟩

/-! ## Lemmas: the eligible version view (`get_prod_versions`) -/

theorem recLe_trans (order : List String) : ∀ a b c : VRec,
    recLe order a b → recLe order b c → recLe order a c := by
  intro a b c h1 h2
  exact le_trans h1 h2

theorem recLe_total (order : List String) : ∀ a b : VRec,
    recLe order a b ∨ recLe order b a := by
  intro a b
  exact le_total _ _

instance : IsTrans VRec (recLe order) := ⟨recLe_trans order⟩

instance : IsTotal VRec (recLe order) := ⟨recLe_total order⟩

theorem gpv_eq (raw : List RawRec) :
    get_prod_versions raw =
      List.insertionSort
        (recLe (sort_versions_by_semver_desc ((normRecords raw).map (fun v => v.version))))
        (normRecords raw) := rfl

theorem gpv_perm (raw : List RawRec) :
    (get_prod_versions raw).Perm (normRecords raw) := by
  rw [gpv_eq]
  exact List.perm_insertionSort _ _

theorem idxDictAux_not_mem {v : String} : ∀ (l : List String) (i : Nat)
    (d : String → Option Nat), v ∉ l → idxDictAux l i d v = d v := by
  intro l
  induction l with
  | nil => intro i d _; rfl
  | cons x l ih =>
    intro i d hv
    rw [idxDictAux, ih _ _ (fun h => hv (by simp [h]))]
    rw [if_neg (fun h => hv (by simp [h]))]

theorem idxDictAux_mem {v : String} : ∀ (l : List String) (i : Nat)
    (d : String → Option Nat), v ∈ l →
    ∃ j, idxDictAux l i d v = some j ∧ i ≤ j ∧ l.get? (j - i) = some v := by
  intro l
  induction l with
  | nil => intro i d hv; simp at hv
  | cons x l ih =>
    intro i d hv
    by_cases hm : v ∈ l
    · rcases ih (i + 1) (fun k => if k = x then some i else d k) hm with ⟨j, hj, hij, hg⟩
      exact ⟨j, hj, by omega, by
        rw [show j - i = (j - (i + 1)) + 1 by omega]
        simpa using hg⟩
    · have hx : v = x := by
        rcases List.mem_cons.mp hv with h | h
        · exact h
        · exact absurd h hm
      subst hx
      rw [idxDictAux, idxDictAux_not_mem l _ _ hm, if_pos rfl]
      exact ⟨i, rfl, le_refl i, by simp⟩

theorem idxDict_mem {order : List String} {v : String} (hv : v ∈ order) :
    ∃ j, idxDict order v = some j ∧ order.get? j = some v := by
  rcases idxDictAux_mem order 0 (fun _ => none) hv with ⟨j, hj, _, hg⟩
  exact ⟨j, hj, by simpa using hg⟩

theorem idxDict_not_mem {order : List String} {v : String} (hv : v ∉ order) :
    idxDict order v = none :=
  idxDictAux_not_mem order 0 _ hv

theorem mem_svd_parseable {l : List String} {v : String}
    (hv : v ∈ sort_versions_by_semver_desc l) : (SemVer.parse v).isSome := by
  have := (svd_perm l).mem_iff.mp hv
  exact (List.mem_filter.mp this).2

theorem mem_svd_of_mem {l : List String} {v : String} (hv : v ∈ l)
    (hp : (SemVer.parse v).isSome) : v ∈ sort_versions_by_semver_desc l :=
  (svd_perm l).mem_iff.mpr (List.mem_filter.mpr ⟨hv, hp⟩)

theorem svd_length_le (l : List String) :
    (sort_versions_by_semver_desc l).length ≤ l.length := by
  rw [(svd_perm l).length_eq]
  exact List.length_filter_le _ _

theorem sortKey_unparseable {raw : List RawRec} {r : VRec}
    (hr : parseableRec r = false) :
    sortKey (sort_versions_by_semver_desc ((normRecords raw).map (fun v => v.version))) r =
      10 ^ 9 := by
  unfold sortKey
  rw [idxDict_not_mem]
  · rfl
  · intro hmem
    have := mem_svd_parseable hmem
    unfold parseableRec at hr
    rw [hr] at this
    cases this

theorem sortKey_parseable_lt {raw : List RawRec} {r : VRec}
    (hmem : r ∈ normRecords raw) (hp : parseableRec r = true)
    (hlen : raw.length < 10 ^ 9) :
    sortKey (sort_versions_by_semver_desc ((normRecords raw).map (fun v => v.version))) r <
      10 ^ 9 := by
  unfold sortKey
  have hvm : r.version ∈ (normRecords raw).map (fun v => v.version) :=
    List.mem_map_of_mem _ hmem
  have hin : r.version ∈
      sort_versions_by_semver_desc ((normRecords raw).map (fun v => v.version)) :=
    mem_svd_of_mem hvm hp
  rcases idxDict_mem hin with ⟨j, hj, hg⟩
  rw [hj]
  obtain ⟨hjlt, -⟩ := List.get?_eq_some.mp hg
  have h1 := svd_length_le ((normRecords raw).map (fun v => v.version))
  have h2 : ((normRecords raw).map (fun v => v.version)).length =
      (normRecords raw).length := List.length_map _ _
  have h3 : (normRecords raw).length ≤ raw.length := by
    unfold normRecords
    exact List.length_filterMap_le _ _
  simp only [Option.getD_some]
  omega

theorem pairwise_filter_append {α : Type} (q : α → Bool) : ∀ l : List α,
    l.Pairwise (fun a b => q b = true → q a = true) →
    l = l.filter q ++ l.filter (fun x => !q x) := by
  intro l
  induction l with
  | nil => intro _; rfl
  | cons a l ih =>
    intro h
    rcases List.pairwise_cons.mp h with ⟨hhead, htail⟩
    cases hq : q a
    · have hall : ∀ b ∈ l, q b = false := by
        intro b hb
        cases hqb : q b
        · rfl
        · rw [hhead b hb hqb] at hq
          cases hq
      have h1 : List.filter q (a :: l) = [] := by
        rw [List.filter_cons_of_neg (by simp [hq])]
        exact List.filter_eq_nil_iff.mpr (fun b hb => by simp [hall b hb])
      have h2 : List.filter (fun x => !q x) (a :: l) = a :: l := by
        apply List.filter_eq_self.mpr
        intro b hb
        rcases List.mem_cons.mp hb with rfl | hb
        · simp [hq]
        · simp [hall b hb]
      rw [h1, h2]
      rfl
    · rw [List.filter_cons_of_pos (by simp [hq]),
        List.filter_cons_of_neg (by simp [hq])]
      rw [List.cons_append, ← ih htail]

theorem gpv_pairwise (raw : List RawRec) :
    (get_prod_versions raw).Pairwise
      (recLe (sort_versions_by_semver_desc ((normRecords raw).map (fun v => v.version)))) := by
  rw [gpv_eq]
  exact List.sorted_insertionSort _ _

theorem key_le_desc {raw : List RawRec} {a b : VRec}
    (ha : a ∈ normRecords raw) (hb : b ∈ normRecords raw)
    (hpa : parseableRec a = true) (hpb : parseableRec b = true)
    (hle : recLe (sort_versions_by_semver_desc ((normRecords raw).map (fun v => v.version)))
      a b) :
    DescStr a.version b.version := by
  intro x y hx hy
  have hva : a.version ∈
      sort_versions_by_semver_desc ((normRecords raw).map (fun v => v.version)) :=
    mem_svd_of_mem (List.mem_map_of_mem _ ha) hpa
  have hvb : b.version ∈
      sort_versions_by_semver_desc ((normRecords raw).map (fun v => v.version)) :=
    mem_svd_of_mem (List.mem_map_of_mem _ hb) hpb
  rcases idxDict_mem hva with ⟨ja, hja, hga⟩
  rcases idxDict_mem hvb with ⟨jb, hjb, hgb⟩
  have hjab : ja ≤ jb := by
    unfold recLe sortKey at hle
    rw [hja, hjb] at hle
    simpa using hle
  obtain ⟨hlta, hgeta⟩ := List.get?_eq_some.mp hga
  obtain ⟨hltb, hgetb⟩ := List.get?_eq_some.mp hgb
  rcases Nat.lt_or_ge ja jb with hlt | hge
  · have hp := svd_pairwise ((normRecords raw).map (fun v => v.version))
    have := List.pairwise_iff_get.mp hp ⟨ja, hlta⟩ ⟨jb, hltb⟩ hlt
    rw [hgeta, hgetb] at this
    exact this x y hx hy
  · have : ja = jb := by omega
    subst this
    have hvv : a.version = b.version := by rw [← hgeta, ← hgetb]
    rw [hvv] at hx
    rw [hx] at hy
    injection hy with hy
    rw [hy]
    have := compare_semver_self y
    omega

theorem gpv_unparseable_tail (raw : List RawRec) :
    (get_prod_versions raw).filter (fun r => !parseableRec r) =
      (normRecords raw).filter (fun r => !parseableRec r) := by
  have hcsub : List.Sublist ((normRecords raw).filter (fun r => !parseableRec r))
      (normRecords raw) :=
    List.filter_sublist _
  have hcpair : ((normRecords raw).filter (fun r => !parseableRec r)).Pairwise
      (recLe (sort_versions_by_semver_desc ((normRecords raw).map (fun v => v.version)))) := by
    apply List.pairwise_of_forall_mem_list
    intro a hma b hmb
    have ha : parseableRec a = false := by
      simpa using (List.mem_filter.mp hma).2
    have hb : parseableRec b = false := by
      simpa using (List.mem_filter.mp hmb).2
    unfold recLe
    rw [@sortKey_unparseable raw a ha, @sortKey_unparseable raw b hb]
  have hc : List.Sublist ((normRecords raw).filter (fun r => !parseableRec r))
      (get_prod_versions raw) := by
    rw [gpv_eq]
    exact List.sublist_insertionSort hcpair hcsub
  have hcid : ((normRecords raw).filter (fun r => !parseableRec r)).filter
      (fun r => !parseableRec r) = (normRecords raw).filter (fun r => !parseableRec r) :=
    List.filter_eq_self.mpr (fun b hb => (List.mem_filter.mp hb).2)
  have hsub2 : List.Sublist ((normRecords raw).filter (fun r => !parseableRec r))
      ((get_prod_versions raw).filter (fun r => !parseableRec r)) := by
    rw [← hcid]
    exact hc.filter _
  have hperm : ((get_prod_versions raw).filter (fun r => !parseableRec r)).Perm
      ((normRecords raw).filter (fun r => !parseableRec r)) := (gpv_perm raw).filter _
  exact (hsub2.eq_of_length hperm.length_eq.symm).symm

/-- C5: the eligible view keeps exactly the normalized records whose
upper-cased release status is `TRUSTED_RELEASE` or `RELEASED`; the
output is a permutation of those records; records with parseable
version strings come first, ordered descending by SemVer precedence,
and records whose version fails to parse follow, preserving exactly
their relative input order.  The size hypothesis reflects the code's
`10**9` sort-key sentinel (the registry listing is capped at 1000
records per call). -/
theorem C5_get_prod_versions_view (raw : List RawRec) (hlen : raw.length < 10 ^ 9) :
    (get_prod_versions raw).Perm (normRecords raw) ∧
    (∀ r : VRec, r ∈ get_prod_versions raw ↔
      ∃ w ∈ raw, (pyUpper w.release_status = TRUSTED ∨ pyUpper w.release_status = RELEASED) ∧
        r = ⟨w.version, w.tag.getD "", pyUpper w.release_status⟩) ∧
    (∃ P : List VRec,
      get_prod_versions raw = P ++ (normRecords raw).filter (fun r => !parseableRec r) ∧
      P.Perm ((normRecords raw).filter parseableRec) ∧
      P.Pairwise (fun a b => DescStr a.version b.version)) := by
  refine ⟨gpv_perm raw, ?_, ?_⟩
  · intro r
    rw [(gpv_perm raw).mem_iff]
    unfold normRecords
    rw [List.mem_filterMap]
    constructor
    · rintro ⟨w, hw, hfw⟩
      by_cases hc : pyUpper w.release_status = TRUSTED ∨ pyUpper w.release_status = RELEASED
      · rw [if_pos (by simpa [decide_eq_true_iff] using hc)] at hfw
        injection hfw with hfw
        exact ⟨w, hw, hc, hfw.symm⟩
      · rw [if_neg (by simpa [decide_eq_true_iff] using hc)] at hfw
        cases hfw
    · rintro ⟨w, hw, hc, hr⟩
      refine ⟨w, hw, ?_⟩
      rw [if_pos (by simpa [decide_eq_true_iff] using hc), hr]
  · have hq : (get_prod_versions raw).Pairwise
        (fun a b => parseableRec b = true → parseableRec a = true) := by
      refine (gpv_pairwise raw).imp_of_mem ?_
      intro a b hma hmb hle hpb
      cases hpa : parseableRec a
      · exfalso
        have hka := @sortKey_unparseable raw a hpa
        have hkb := sortKey_parseable_lt ((gpv_perm raw).mem_iff.mp hmb) hpb hlen
        unfold recLe at hle
        omega
      · rfl
    have hsplit := pairwise_filter_append parseableRec (get_prod_versions raw) hq
    refine ⟨(get_prod_versions raw).filter parseableRec, ?_, (gpv_perm raw).filter _, ?_⟩
    · rw [← gpv_unparseable_tail raw]
      exact hsplit
    · refine ((gpv_pairwise raw).filter _).imp_of_mem ?_
      intro a b hma hmb hle
      have hpa := (List.mem_filter.mp hma).2
      have hpb := (List.mem_filter.mp hmb).2
      have hma' := (gpv_perm raw).mem_iff.mp (List.mem_filter.mp hma).1
      have hmb' := (gpv_perm raw).mem_iff.mp (List.mem_filter.mp hmb).1
      exact key_le_desc hma' hmb' hpa hpb hle

/-- Witness for C5 at a concrete registry snapshot. -/
theorem C5_witness :
    ([⟨"2.0.0", some "latest", "TRUSTED_RELEASE"⟩, ⟨"zzz", none, "released"⟩,
      ⟨"1.0.0", none, "RELEASED"⟩, ⟨"0.5.0", none, "PENDING"⟩] : List RawRec).length <
        10 ^ 9 ∧
    (get_prod_versions
        [⟨"2.0.0", some "latest", "TRUSTED_RELEASE"⟩, ⟨"zzz", none, "released"⟩,
         ⟨"1.0.0", none, "RELEASED"⟩, ⟨"0.5.0", none, "PENDING"⟩]).Perm
      (normRecords
        [⟨"2.0.0", some "latest", "TRUSTED_RELEASE"⟩, ⟨"zzz", none, "released"⟩,
         ⟨"1.0.0", none, "RELEASED"⟩, ⟨"0.5.0", none, "PENDING"⟩]) :=
  ⟨by decide,
   (C5_get_prod_versions_view
      [⟨"2.0.0", some "latest", "TRUSTED_RELEASE"⟩, ⟨"zzz", none, "released"⟩,
       ⟨"1.0.0", none, "RELEASED"⟩, ⟨"0.5.0", none, "PENDING"⟩] (by decide)).1⟩

/-! ## Lemmas: the successor selector (`pick_next_latest`) -/

theorem dupGroup_isEmpty_iff (l : List VRec) (excl k : String) :
    (!(dupGroup l excl k).isEmpty) =
      ((survivors l excl).any (fun r => decide (r.version = k))) := by
  unfold dupGroup
  cases h : (survivors l excl).filter (fun v => decide (v.version = k)) with
  | nil =>
    simp only [List.isEmpty_nil, Bool.not_true]
    symm
    rw [List.any_eq_false]
    intro r hr
    intro hk
    have : r ∈ (survivors l excl).filter (fun v => decide (v.version = k)) :=
      List.mem_filter.mpr ⟨hr, hk⟩
    rw [h] at this
    cases this
  | cons x t =>
    simp only [List.isEmpty_cons, Bool.not_false]
    symm
    rw [List.any_eq_true]
    have : x ∈ (survivors l excl).filter (fun v => decide (v.version = k)) := by
      rw [h]
      exact List.mem_cons_self x t
    exact ⟨x, (List.mem_filter.mp this).1, (List.mem_filter.mp this).2⟩

theorem orderedVers_head_acc (l : List VRec) (excl : String) :
    ∀ (scan : List VRec) (acc : List String), acc ≠ [] →
      ((scan.foldl (fun acc v =>
        if v.version = excl then acc
        else if !(dupGroup l excl v.version).isEmpty && !decide (v.version ∈ acc)
             then acc ++ [v.version] else acc) acc).head? = acc.head? ∧
       scan.foldl (fun acc v =>
        if v.version = excl then acc
        else if !(dupGroup l excl v.version).isEmpty && !decide (v.version ∈ acc)
             then acc ++ [v.version] else acc) acc ≠ []) := by
  intro scan
  induction scan with
  | nil => intro acc h; exact ⟨rfl, h⟩
  | cons v scan ih =>
    intro acc h
    simp only [List.foldl_cons]
    split
    · exact ih acc h
    · split
      · rcases ih (acc ++ [v.version]) (by simp) with ⟨h1, h2⟩
        refine ⟨?_, h2⟩
        rw [h1]
        cases acc with
        | nil => exact absurd rfl h
        | cons a t => rfl
      · exact ih acc h

theorem orderedVers_scan (l : List VRec) (excl : String) : ∀ scan : List VRec,
    (scan.foldl (fun acc v =>
      if v.version = excl then acc
      else if !(dupGroup l excl v.version).isEmpty && !decide (v.version ∈ acc)
           then acc ++ [v.version] else acc) []).head? =
      ((scan.filter (fun v => !decide (v.version = excl))).map (fun v => v.version)).find?
        (fun ver => !(dupGroup l excl ver).isEmpty) := by
  intro scan
  induction scan with
  | nil => rfl
  | cons v scan ih =>
    simp only [List.foldl_cons]
    by_cases hv : v.version = excl
    · rw [if_pos hv]
      rw [List.filter_cons_of_neg (by simp [hv])]
      exact ih
    · rw [if_neg hv]
      rw [List.filter_cons_of_pos (by simp [hv]), List.map_cons]
      cases hP : (dupGroup l excl v.version).isEmpty
      · rw [if_pos (by simp)]
        rw [List.find?_cons_of_pos _ (by simp [hP])]
        exact (orderedVers_head_acc l excl scan [v.version] (by simp)).1
      · rw [if_neg (by simp)]
        rw [List.find?_cons_of_neg _ (by simp [hP])]
        exact ih

theorem orderedVers_head (l : List VRec) (excl : String) :
    (orderedVers l excl).head? =
      ((l.filter (fun v => !decide (v.version = excl))).map (fun v => v.version)).find?
        (fun ver => !(dupGroup l excl ver).isEmpty) :=
  orderedVers_scan l excl l

theorem pick_eq_amended (l : List VRec) (excl : String) :
    pick_next_latest l excl = pickSuccessorAmended l excl := by
  have hpred : (fun ver => !(dupGroup l excl ver).isEmpty) =
      (fun ver => (survivors l excl).any (fun r => decide (r.version = ver))) :=
    funext (dupGroup_isEmpty_iff l excl)
  unfold pick_next_latest pickSuccessorAmended
  dsimp only
  by_cases hemp : (survivors l excl).isEmpty
  · rw [if_pos hemp]
    have hrem : survivors l excl = [] := by
      cases h : survivors l excl with
      | nil => rfl
      | cons x t => rw [h] at hemp; cases hemp
    have hfnone : ((l.filter (fun v => !decide (v.version = excl))).map
        (fun v => v.version)).find?
        (fun ver => (survivors l excl).any (fun r => decide (r.version = ver))) = none := by
      rw [List.find?_eq_none]
      intro x _
      rw [hrem]
      simp
    rw [hfnone]
  · rw [if_neg hemp]
    have hfind : ((l.filter (fun v => !decide (v.version = excl))).map
        (fun v => v.version)).find?
        (fun ver => (survivors l excl).any (fun r => decide (r.version = ver))) =
        (orderedVers l excl).head? := by
      rw [← hpred, orderedVers_head]
    cases ho : orderedVers l excl with
    | nil =>
      rw [ho] at hfind
      rw [hfind]
      rfl
    | cons ver rest =>
      rw [ho] at hfind
      rw [hfind]
      rfl

/-- C4 counterexample: on the concrete eligible list `cexList` (whose
first record is a quarantined row of version `2.0.0`, followed by a
`1.9.0` row and a non-quarantined `2.0.0` row), the code returns the
`2.0.0` record while the spec-worded algorithm — which drops
quarantine-tagged records before computing the first-seen order of
distinct versions — returns the `1.9.0` record. -/
theorem C4_counterexample :
    pick_next_latest cexList ("3.0.0") = some ⟨"2.0.0", "", "RELEASED"⟩ ∧
    pickSuccessorSpec cexList ("3.0.0") = some ⟨"1.9.0", "", "RELEASED"⟩ ∧
    pick_next_latest cexList ("3.0.0") ≠ pickSuccessorSpec cexList ("3.0.0") := by
  refine ⟨by decide, by decide, by decide⟩

/-- C4 (amended): the §8 fixture evaluates as documented, and in general
`pick_next_latest` drops the excluded version and all quarantine-tagged
records, scans the distinct versions in order of first occurrence among
records other than the excluded version — a quarantine-tagged
occurrence still marks the first-seen position of its version — takes
the first version that still has a surviving record, and within that
version's group of surviving records returns the first
`TRUSTED_RELEASE` record if one exists, otherwise the group's first
record. -/
theorem C4_pick_next_latest :
    pick_next_latest fixtureList ("2.0.0") = some ⟨"1.9.0", "", "RELEASED"⟩ ∧
    (∀ (l : List VRec) (excl : String),
      pick_next_latest l excl = pickSuccessorAmended l excl) :=
  ⟨by decide, pick_eq_amended⟩

/-! ## Lemmas: the orchestrator (`rollback_in_prod`) -/

theorem by_version_aux (l : List VRec) : ∀ (d : String → Option VRec) (k : String),
    (l.foldl (fun d v => fun k => if k = v.version then some v else d k) d) k =
      (match (l.filter (fun r => decide (k = r.version))).getLast? with
       | some v => some v
       | none => d k) := by
  induction l with
  | nil => intro d k; rfl
  | cons v l ih =>
    intro d k
    rw [List.foldl_cons, ih]
    by_cases hk : k = v.version
    · rw [List.filter_cons_of_pos (by simp [hk])]
      cases hfl : (l.filter (fun r => decide (k = r.version))).getLast? with
      | some w =>
        cases hl : l.filter (fun r => decide (k = r.version)) with
        | nil => rw [hl] at hfl; cases hfl
        | cons b u =>
          rw [List.getLast?_cons_cons, ← hl, hfl]
      | none =>
        have hl : l.filter (fun r => decide (k = r.version)) = [] :=
          List.getLast?_eq_none_iff.mp hfl
        rw [hl]
        simp [hk]
    · rw [List.filter_cons_of_neg (by simp [hk])]
      cases hfl : (l.filter (fun r => decide (k = r.version))).getLast? <;> simp [hk]

theorem by_version_eq (l : List VRec) (k : String) :
    by_version l k = (l.filter (fun r => decide (k = r.version))).getLast? := by
  unfold by_version
  rw [by_version_aux]
  cases (l.filter (fun r => decide (k = r.version))).getLast? <;> rfl

theorem by_version_none_iff (l : List VRec) (k : String) :
    by_version l k = none ↔ ∀ r ∈ l, r.version ≠ k := by
  rw [by_version_eq, List.getLast?_eq_none_iff, List.filter_eq_nil_iff]
  constructor
  · intro h r hr he
    exact h r hr (by simp [he])
  · intro h r hr hd
    exact h r hr (by simpa [eq_comm] using hd)

theorem by_version_some_mem {l : List VRec} {k : String} {r : VRec}
    (h : by_version l k = some r) : r ∈ l ∧ r.version = k := by
  rw [by_version_eq] at h
  have hm : r ∈ l.filter (fun r => decide (k = r.version)) :=
    List.mem_of_getLast?_eq_some h
  exact ⟨(List.mem_filter.mp hm).1, by
    have := (List.mem_filter.mp hm).2
    simpa [eq_comm] using this⟩

/-! String prefix disequality helpers for the printed lines. -/

theorem append_ne_of_nth {P Q : String} {i : Nat} {c d : Char}
    (hP : P.data.get? i = some c) (hQ : Q.data.get? i = some d) (hcd : c ≠ d)
    (x y : String) : P ++ x ≠ Q ++ y := by
  intro h
  obtain ⟨hiP, -⟩ := List.get?_eq_some.mp hP
  obtain ⟨hiQ, -⟩ := List.get?_eq_some.mp hQ
  have hd' := congrArg (fun s => s.data.get? i) h
  simp only [String.data_append] at hd'
  rw [List.get?_append hiP, List.get?_append hiQ, hP, hQ] at hd'
  exact hcd (Option.some_injective _ hd')

theorem append_ne_closed {P Q : String} {i : Nat} {c d : Char}
    (hP : P.data.get? i = some c) (hQ : Q.data.get? i = some d) (hcd : c ≠ d)
    (x : String) : P ++ x ≠ Q := by
  intro h
  exact append_ne_of_nth hP hQ hcd x "" (by rw [h, String.append_empty])

theorem string_append_left_cancel {P x y : String} (h : P ++ x = P ++ y) : x = y := by
  apply string_data_inj
  have := congrArg (fun s => s.data) h
  simp only [String.data_append] at this
  exact List.append_cancel_left this

/-! Segment and trace shape equations. -/

theorem evStageBefore_eq (cb : ClientBehavior) (app tv : String) :
    evStageBefore cb app tv =
      [Event.callGetVersion app tv,
       Event.print ("WORKFLOW_STAGE_BEFORE=" ++ stageBeforeVal cb)] := by
  unfold evStageBefore stageBeforeVal
  cases cb.stageBefore <;> rfl

theorem evStageAfter_eq (cb : ClientBehavior) (app tv : String) :
    evStageAfter cb app tv =
      [Event.callGetVersion app tv,
       Event.print ("WORKFLOW_STAGE_AFTER=" ++ stageAfterVal cb)] := by
  unfold evStageAfter stageAfterVal
  cases cb.stageAfter <;> rfl

theorem evRollback_dry (cb : ClientBehavior) (app tv : String) :
    evRollback cb app tv true =
      ([Event.print ("[DRY-RUN] Would call AppTrust rollback API: POST /applications/"
          ++ app ++ "/versions/" ++ tv ++ "/rollback with body \x7bfrom_stage: "
          ++ "PROD" ++ "\x7d")],
       none) := rfl

theorem evRollback_ok (cb : ClientBehavior) (app tv : String) (h : cb.rollbackOk = true) :
    evRollback cb app tv false =
      ([Event.print ("Calling AppTrust endpoint: POST /applications/" ++ app
          ++ "/versions/" ++ tv ++ "/rollback with body \x7bfrom_stage: "
          ++ "PROD" ++ "\x7d"),
        Event.callRollback app tv "PROD",
        Event.print ("Invoked AppTrust rollback for " ++ app ++ "@" ++ tv ++ " from "
          ++ "PROD")],
       none) := by
  unfold evRollback
  rw [h]
  rfl

theorem evRollback_fail (cb : ClientBehavior) (app tv : String) (h : cb.rollbackOk = false) :
    evRollback cb app tv false =
      ([Event.print ("Calling AppTrust endpoint: POST /applications/" ++ app
          ++ "/versions/" ++ tv ++ "/rollback with body \x7bfrom_stage: "
          ++ "PROD" ++ "\x7d"),
        Event.callRollback app tv "PROD"],
       some ("AppTrust rollback API call failed")) := by
  unfold evRollback
  rw [h]
  rfl

theorem rollback_eq_notfound (cb : ClientBehavior) (app tv : String) (dry : Bool)
    (hby : by_version (get_prod_versions cb.versionsResp) tv = none) :
    rollback_in_prod cb app tv dry =
      ([Event.callList app], some ("Target version not found in PROD set: " ++ tv)) := by
  unfold rollback_in_prod
  dsimp only
  rw [hby]

theorem rollback_eq_rollfail (cb : ClientBehavior) (app tv : String) (dry : Bool)
    {target : VRec} {err : String}
    (hby : by_version (get_prod_versions cb.versionsResp) tv = some target)
    (hr2 : (evRollback cb app tv dry).2 = some err) :
    rollback_in_prod cb app tv dry =
      ([Event.callList app] ++ evStageBefore cb app tv ++ (evRollback cb app tv dry).1,
       some err) := by
  unfold rollback_in_prod
  dsimp only
  rw [hby]
  dsimp only
  rw [hr2]

theorem rollback_eq_found (cb : ClientBehavior) (app tv : String) (dry : Bool)
    {target : VRec}
    (hby : by_version (get_prod_versions cb.versionsResp) tv = some target)
    (hr2 : (evRollback cb app tv dry).2 = none) :
    rollback_in_prod cb app tv dry =
      (if target.tag = LATEST_TAG then
        match pick_next_latest (get_prod_versions cb.versionsResp) tv with
        | none =>
          (([Event.callList app] ++ evStageBefore cb app tv ++ (evRollback cb app tv dry).1
              ++ evStageAfter cb app tv)
            ++ backup_tag_then_patch app tv BACKUP_BEFORE_QUARANTINE QUARANTINE_TAG
                target.tag dry
            ++ [Event.print
              ("No successor found for latest; system will have no \x27latest\x27 until next promote.")],
           none)
        | some cand =>
          (([Event.callList app] ++ evStageBefore cb app tv ++ (evRollback cb app tv dry).1
              ++ evStageAfter cb app tv)
            ++ backup_tag_then_patch app tv BACKUP_BEFORE_QUARANTINE QUARANTINE_TAG
                target.tag dry
            ++ backup_tag_then_patch app cand.version BACKUP_BEFORE_LATEST LATEST_TAG
                cand.tag dry
            ++ [Event.print ("Reassigned latest to " ++ cand.version)],
           none)
      else
        (([Event.callList app] ++ evStageBefore cb app tv ++ (evRollback cb app tv dry).1
            ++ evStageAfter cb app tv)
          ++ backup_tag_then_patch app tv BACKUP_BEFORE_QUARANTINE QUARANTINE_TAG
              target.tag dry
          ++ [Event.print ("Rolled back non-latest version; \x27latest\x27 unchanged.")],
         none)) := by
  unfold rollback_in_prod
  dsimp only
  rw [hby]
  dsimp only
  rw [hr2]

/-! First-character analysis of the printed lines: used to tell the two
workflow stage lines apart from every other printed line. -/

theorem get0_append {P : String} {c : Char} (h : P.data.get? 0 = some c) (x : String) :
    (P ++ x).data.get? 0 = some c := by
  rw [String.data_append]
  cases hd : P.data with
  | nil => rw [hd] at h; cases h
  | cons a t =>
    rw [hd] at h
    simpa using h

theorem ne_of_get {i : Nat} {s t : String} {c d : Char} (hs : s.data.get? i = some c)
    (ht : t.data.get? i = some d) (hcd : c ≠ d) : s ≠ t := by
  intro h
  rw [h, ht] at hs
  exact hcd (Option.some_injective _ hs.symm)

theorem bline_get0 (s : String) :
    ("WORKFLOW_STAGE_BEFORE=" ++ s).data.get? 0 = some ('W') :=
  get0_append (by decide) s

theorem aline_get0 (s : String) :
    ("WORKFLOW_STAGE_AFTER=" ++ s).data.get? 0 = some ('W') :=
  get0_append (by decide) s

theorem bline_get15 (s : String) :
    ("WORKFLOW_STAGE_BEFORE=" ++ s).data.get? 15 = some ('B') := by
  rw [String.data_append, List.get?_append (by decide)]
  decide

theorem aline_get15 (s : String) :
    ("WORKFLOW_STAGE_AFTER=" ++ s).data.get? 15 = some ('A') := by
  rw [String.data_append, List.get?_append (by decide)]
  decide

theorem bline_ne_aline (s t : String) :
    ("WORKFLOW_STAGE_BEFORE=" ++ s) ≠ ("WORKFLOW_STAGE_AFTER=" ++ t) :=
  ne_of_get (bline_get15 s) (aline_get15 t) (by decide)

theorem tmpl_dryroll_get0 (app tv : String) :
    ("[DRY-RUN] Would call AppTrust rollback API: POST /applications/" ++ app
      ++ "/versions/" ++ tv ++ "/rollback with body \x7bfrom_stage: " ++ "PROD"
      ++ "\x7d").data.get? 0 = some ('[') :=
  get0_append (get0_append (get0_append (get0_append (get0_append
    (get0_append (by decide) app) ("/versions/")) tv)
    ("/rollback with body \x7bfrom_stage: ")) ("PROD")) ("\x7d")

theorem tmpl_calling_get0 (app tv : String) :
    ("Calling AppTrust endpoint: POST /applications/" ++ app ++ "/versions/" ++ tv
      ++ "/rollback with body \x7bfrom_stage: " ++ "PROD" ++ "\x7d").data.get? 0 =
      some ('C') :=
  get0_append (get0_append (get0_append (get0_append (get0_append
    (get0_append (by decide) app) ("/versions/")) tv)
    ("/rollback with body \x7bfrom_stage: ")) ("PROD")) ("\x7d")

theorem tmpl_invoked_get0 (app tv : String) :
    ("Invoked AppTrust rollback for " ++ app ++ "@" ++ tv ++ " from "
      ++ "PROD").data.get? 0 = some ('I') :=
  get0_append (get0_append (get0_append (get0_append
    (get0_append (by decide) app) ("@")) tv) (" from ")) ("PROD")

theorem tmpl_drypatch_get0 (app ver key cur tag : String) :
    ("[DRY-RUN] PATCH backup+tag: app=" ++ app ++ " version=" ++ ver
      ++ " props=\x7b\x27" ++ key ++ "\x27: [\x27" ++ cur ++ "\x27]\x7d tag="
      ++ tag).data.get? 0 = some ('[') :=
  get0_append (get0_append (get0_append (get0_append (get0_append (get0_append
    (get0_append (get0_append (get0_append (by decide) app) (" version=")) ver)
    (" props=\x7b\x27")) key) ("\x27: [\x27")) cur) ("\x27]\x7d tag=")) tag

theorem tmpl_reassigned_get0 (ver : String) :
    ("Reassigned latest to " ++ ver).data.get? 0 = some ('R') :=
  get0_append (by decide) ver

/-! Per-segment facts about which events can occur where. -/

theorem patch_not_mem_stageBefore (cb : ClientBehavior) (app tv a v : String)
    (tg : Option String) (pr : List (String × List String)) :
    Event.callPatch a v tg pr ∉ evStageBefore cb app tv := by
  rw [evStageBefore_eq]
  simp

theorem patch_not_mem_stageAfter (cb : ClientBehavior) (app tv a v : String)
    (tg : Option String) (pr : List (String × List String)) :
    Event.callPatch a v tg pr ∉ evStageAfter cb app tv := by
  rw [evStageAfter_eq]
  simp

theorem patch_not_mem_evRollback (cb : ClientBehavior) (app tv a v : String)
    (tg : Option String) (pr : List (String × List String)) (dry : Bool) :
    Event.callPatch a v tg pr ∉ (evRollback cb app tv dry).1 := by
  cases dry
  · cases hok : cb.rollbackOk
    · rw [evRollback_fail cb app tv hok]
      simp
    · rw [evRollback_ok cb app tv hok]
      simp
  · rw [evRollback_dry cb app tv]
    simp

theorem rollcall_not_mem_stageBefore (cb : ClientBehavior) (app tv a v f : String) :
    Event.callRollback a v f ∉ evStageBefore cb app tv := by
  rw [evStageBefore_eq]
  simp

theorem rollcall_not_mem_stageAfter (cb : ClientBehavior) (app tv a v f : String) :
    Event.callRollback a v f ∉ evStageAfter cb app tv := by
  rw [evStageAfter_eq]
  simp

theorem rollcall_not_mem_evRollback_dry (cb : ClientBehavior) (app tv a v f : String) :
    Event.callRollback a v f ∉ (evRollback cb app tv true).1 := by
  rw [evRollback_dry cb app tv]
  simp

theorem patch_mem_backup {app ver key ntag cur : String} {dry : Bool}
    {a v : String} {tg : Option String} {pr : List (String × List String)}
    (hm : Event.callPatch a v tg pr ∈ backup_tag_then_patch app ver key ntag cur dry) :
    dry = false ∧ a = app ∧ v = ver ∧ tg = some ntag ∧ pr = [(key, [cur])] := by
  cases dry
  · unfold backup_tag_then_patch at hm
    simp at hm
    obtain ⟨h1, h2, h3, h4⟩ := hm
    exact ⟨rfl, h1, h2, h3, h4⟩
  · unfold backup_tag_then_patch at hm
    simp at hm

theorem patch_not_mem_backup_dry (app ver key ntag cur : String)
    (a v : String) (tg : Option String) (pr : List (String × List String)) :
    Event.callPatch a v tg pr ∉ backup_tag_then_patch app ver key ntag cur true := by
  unfold backup_tag_then_patch
  simp

theorem backup_dry_run_no_calls (app ver key ntag cur : String) :
    backup_tag_then_patch app ver key ntag cur true =
      [Event.print ("[DRY-RUN] PATCH backup+tag: app=" ++ app ++ " version=" ++ ver
        ++ " props=\x7b\x27" ++ key ++ "\x27: [\x27" ++ cur ++ "\x27]\x7d tag=" ++ ntag)] :=
  rfl

theorem backup_patch_eq (app ver key ntag cur : String) :
    backup_tag_then_patch app ver key ntag cur false =
      [Event.callPatch app ver (some ntag) [(key, [cur])]] := rfl

/-! Where the two workflow stage lines can occur. -/

theorem bline_mem_stageBefore_iff (cb : ClientBehavior) (app tv s : String) :
    Event.print ("WORKFLOW_STAGE_BEFORE=" ++ s) ∈ evStageBefore cb app tv ↔
      s = stageBeforeVal cb := by
  rw [evStageBefore_eq]
  simp only [List.mem_cons, List.mem_singleton, List.not_mem_nil, or_false]
  constructor
  · rintro (h | h)
    · cases h
    · injection h with h'
      exact string_append_left_cancel h'
  · intro h
    right
    rw [h]

theorem bline_not_mem_stageAfter (cb : ClientBehavior) (app tv s : String) :
    Event.print ("WORKFLOW_STAGE_BEFORE=" ++ s) ∉ evStageAfter cb app tv := by
  rw [evStageAfter_eq]
  intro hm
  simp only [List.mem_cons, List.mem_singleton, List.not_mem_nil, or_false] at hm
  rcases hm with h | h
  · cases h
  · injection h with h'
    exact bline_ne_aline s (stageAfterVal cb) h'

theorem aline_mem_stageAfter_iff (cb : ClientBehavior) (app tv s : String) :
    Event.print ("WORKFLOW_STAGE_AFTER=" ++ s) ∈ evStageAfter cb app tv ↔
      s = stageAfterVal cb := by
  rw [evStageAfter_eq]
  simp only [List.mem_cons, List.mem_singleton, List.not_mem_nil, or_false]
  constructor
  · rintro (h | h)
    · cases h
    · injection h with h'
      exact string_append_left_cancel h'
  · intro h
    right
    rw [h]

theorem aline_not_mem_stageBefore (cb : ClientBehavior) (app tv s : String) :
    Event.print ("WORKFLOW_STAGE_AFTER=" ++ s) ∉ evStageBefore cb app tv := by
  rw [evStageBefore_eq]
  intro hm
  simp only [List.mem_cons, List.mem_singleton, List.not_mem_nil, or_false] at hm
  rcases hm with h | h
  · cases h
  · injection h with h'
    exact bline_ne_aline (stageBeforeVal cb) s h'.symm

theorem wline_not_mem_evRollback (cb : ClientBehavior) (app tv s : String) (dry : Bool)
    {W : String} (hW : ∀ t, (W ++ t).data.get? 0 = some ('W')) :
    Event.print (W ++ s) ∉ (evRollback cb app tv dry).1 := by
  cases dry
  · cases hok : cb.rollbackOk
    · rw [evRollback_fail cb app tv hok]
      intro hm
      simp only [List.mem_cons, List.mem_singleton, List.not_mem_nil, or_false] at hm
      rcases hm with h | h
      · injection h with h'
        exact ne_of_get (hW s) (tmpl_calling_get0 app tv) (by decide) h'
      · cases h
    · rw [evRollback_ok cb app tv hok]
      intro hm
      simp only [List.mem_cons, List.mem_singleton, List.not_mem_nil, or_false] at hm
      rcases hm with h | h | h
      · injection h with h'
        exact ne_of_get (hW s) (tmpl_calling_get0 app tv) (by decide) h'
      · cases h
      · injection h with h'
        exact ne_of_get (hW s) (tmpl_invoked_get0 app tv) (by decide) h'
  · rw [evRollback_dry cb app tv]
    intro hm
    simp only [List.mem_singleton] at hm
    injection hm with h'
    exact ne_of_get (hW s) (tmpl_dryroll_get0 app tv) (by decide) h'

theorem wline_not_mem_backup (app ver key ntag cur s : String) (dry : Bool)
    {W : String} (hW : ∀ t, (W ++ t).data.get? 0 = some ('W')) :
    Event.print (W ++ s) ∉ backup_tag_then_patch app ver key ntag cur dry := by
  cases dry
  · rw [backup_patch_eq]
    simp
  · rw [backup_dry_run_no_calls]
    intro hm
    simp only [List.mem_singleton] at hm
    injection hm with h'
    exact ne_of_get (hW s) (tmpl_drypatch_get0 app ver key cur ntag) (by decide) h'

/-! The three found-and-rolled-back branch shapes, and when the rollback
step succeeds. -/

theorem evRollback_snd_none (cb : ClientBehavior) (app tv : String) (dry : Bool)
    (h : dry = true ∨ cb.rollbackOk = true) :
    (evRollback cb app tv dry).2 = none := by
  cases dry
  · rcases h with h | h
    · cases h
    · rw [evRollback_ok cb app tv h]
  · rw [evRollback_dry]

theorem rollback_eq_nonlatest (cb : ClientBehavior) (app tv : String) (dry : Bool)
    {target : VRec}
    (hby : by_version (get_prod_versions cb.versionsResp) tv = some target)
    (hr2 : (evRollback cb app tv dry).2 = none)
    (htag : ¬ target.tag = LATEST_TAG) :
    rollback_in_prod cb app tv dry =
      (([Event.callList app] ++ evStageBefore cb app tv ++ (evRollback cb app tv dry).1
          ++ evStageAfter cb app tv)
        ++ backup_tag_then_patch app tv BACKUP_BEFORE_QUARANTINE QUARANTINE_TAG
            target.tag dry
        ++ [Event.print ("Rolled back non-latest version; \x27latest\x27 unchanged.")],
       none) := by
  rw [rollback_eq_found cb app tv dry hby hr2, if_neg htag]

theorem rollback_eq_latest_nosucc (cb : ClientBehavior) (app tv : String) (dry : Bool)
    {target : VRec}
    (hby : by_version (get_prod_versions cb.versionsResp) tv = some target)
    (hr2 : (evRollback cb app tv dry).2 = none)
    (htag : target.tag = LATEST_TAG)
    (hpick : pick_next_latest (get_prod_versions cb.versionsResp) tv = none) :
    rollback_in_prod cb app tv dry =
      (([Event.callList app] ++ evStageBefore cb app tv ++ (evRollback cb app tv dry).1
          ++ evStageAfter cb app tv)
        ++ backup_tag_then_patch app tv BACKUP_BEFORE_QUARANTINE QUARANTINE_TAG
            target.tag dry
        ++ [Event.print
          ("No successor found for latest; system will have no \x27latest\x27 until next promote.")],
       none) := by
  rw [rollback_eq_found cb app tv dry hby hr2, if_pos htag, hpick]

theorem rollback_eq_latest_succ (cb : ClientBehavior) (app tv : String) (dry : Bool)
    {target cand : VRec}
    (hby : by_version (get_prod_versions cb.versionsResp) tv = some target)
    (hr2 : (evRollback cb app tv dry).2 = none)
    (htag : target.tag = LATEST_TAG)
    (hpick : pick_next_latest (get_prod_versions cb.versionsResp) tv = some cand) :
    rollback_in_prod cb app tv dry =
      (([Event.callList app] ++ evStageBefore cb app tv ++ (evRollback cb app tv dry).1
          ++ evStageAfter cb app tv)
        ++ backup_tag_then_patch app tv BACKUP_BEFORE_QUARANTINE QUARANTINE_TAG
            target.tag dry
        ++ backup_tag_then_patch app cand.version BACKUP_BEFORE_LATEST LATEST_TAG
            cand.tag dry
        ++ [Event.print ("Reassigned latest to " ++ cand.version)],
       none) := by
  rw [rollback_eq_found cb app tv dry hby hr2, if_pos htag, hpick]

/-- C2: when the target version is absent from the eligible PROD set, the
orchestration fails with the not-found error having issued only the
read-only listing call — no patch and no rollback call is ever issued,
so the registry is left unchanged. -/
theorem C2_not_found_aborts_before_mutation
    (cb : ClientBehavior) (app tv : String) (dry : Bool)
    (habs : ∀ r ∈ get_prod_versions cb.versionsResp, r.version ≠ tv) :
    rollback_in_prod cb app tv dry =
      ([Event.callList app], some ("Target version not found in PROD set: " ++ tv)) ∧
    (∀ a v tg pr, Event.callPatch a v tg pr ∉ (rollback_in_prod cb app tv dry).1) ∧
    (∀ a v f, Event.callRollback a v f ∉ (rollback_in_prod cb app tv dry).1) := by
  have hby := (by_version_none_iff (get_prod_versions cb.versionsResp) tv).mpr habs
  have heq := rollback_eq_notfound cb app tv dry hby
  refine ⟨heq, ?_, ?_⟩
  · intro a v tg pr
    rw [heq]
    simp
  · intro a v f
    rw [heq]
    simp

/-- Witness for C2 on an empty registry snapshot. -/
theorem C2_witness :
    (∀ r ∈ get_prod_versions (ClientBehavior.mk [] none none true).versionsResp,
      r.version ≠ "1.0.0") ∧
    rollback_in_prod (ClientBehavior.mk [] none none true) "app" "1.0.0" false =
      ([Event.callList "app"],
       some ("Target version not found in PROD set: " ++ "1.0.0")) :=
  ⟨by decide,
   (C2_not_found_aborts_before_mutation (ClientBehavior.mk [] none none true)
      "app" "1.0.0" false (by decide)).1⟩

/-- C3: a dry-run invocation issues no mutating registry call — no patch
and no rollback — while the read-only calls are still performed: the
version listing always, and, whenever the target is found, both
best-effort stage queries. -/
theorem C3_dry_run_zero_mutating_calls (cb : ClientBehavior) (app tv : String) :
    (∀ a v tg pr, Event.callPatch a v tg pr ∉ (rollback_in_prod cb app tv true).1) ∧
    (∀ a v f, Event.callRollback a v f ∉ (rollback_in_prod cb app tv true).1) ∧
    Event.callList app ∈ (rollback_in_prod cb app tv true).1 ∧
    (∀ target, by_version (get_prod_versions cb.versionsResp) tv = some target →
      (rollback_in_prod cb app tv true).1.count (Event.callGetVersion app tv) = 2) := by
  have hr2 : (evRollback cb app tv true).2 = none := by rw [evRollback_dry]
  cases hby : by_version (get_prod_versions cb.versionsResp) tv with
  | none =>
    have heq := rollback_eq_notfound cb app tv true hby
    refine ⟨?_, ?_, ?_, ?_⟩
    · intro a v tg pr
      rw [heq]
      simp
    · intro a v f
      rw [heq]
      simp
    · rw [heq]
      simp
    · intro target h
      exact Option.noConfusion h
  | some target =>
    by_cases htag : target.tag = LATEST_TAG
    · cases hpick : pick_next_latest (get_prod_versions cb.versionsResp) tv with
      | none =>
        have heq := rollback_eq_latest_nosucc cb app tv true hby hr2 htag hpick
        refine ⟨?_, ?_, ?_, ?_⟩
        · intro a v tg pr
          simp only [heq, evStageBefore_eq, evRollback_dry, evStageAfter_eq,
            backup_dry_run_no_calls]
          simp
        · intro a v f
          simp only [heq, evStageBefore_eq, evRollback_dry, evStageAfter_eq,
            backup_dry_run_no_calls]
          simp
        · simp only [heq]
          simp
        · intro t ht
          simp only [heq, evStageBefore_eq, evRollback_dry, evStageAfter_eq,
            backup_dry_run_no_calls]
          simp [List.count_cons, List.count_append]
      | some cand =>
        have heq := rollback_eq_latest_succ cb app tv true hby hr2 htag hpick
        refine ⟨?_, ?_, ?_, ?_⟩
        · intro a v tg pr
          simp only [heq, evStageBefore_eq, evRollback_dry, evStageAfter_eq,
            backup_dry_run_no_calls]
          simp
        · intro a v f
          simp only [heq, evStageBefore_eq, evRollback_dry, evStageAfter_eq,
            backup_dry_run_no_calls]
          simp
        · simp only [heq]
          simp
        · intro t ht
          simp only [heq, evStageBefore_eq, evRollback_dry, evStageAfter_eq,
            backup_dry_run_no_calls]
          simp [List.count_cons, List.count_append]
    · have heq := rollback_eq_nonlatest cb app tv true hby hr2 htag
      refine ⟨?_, ?_, ?_, ?_⟩
      · intro a v tg pr
        simp only [heq, evStageBefore_eq, evRollback_dry, evStageAfter_eq,
          backup_dry_run_no_calls]
        simp
      · intro a v f
        simp only [heq, evStageBefore_eq, evRollback_dry, evStageAfter_eq,
          backup_dry_run_no_calls]
        simp
      · simp only [heq]
        simp
      · intro t ht
        simp only [heq, evStageBefore_eq, evRollback_dry, evStageAfter_eq,
          backup_dry_run_no_calls]
        simp [List.count_cons, List.count_append]

/-! Counting the workflow stage lines. -/

theorem nosucc_get0 :
    ("No successor found for latest; system will have no \x27latest\x27 until next promote.").data.get? 0 =
      some ('N') := by
  decide

theorem rolledback_get0 :
    ("Rolled back non-latest version; \x27latest\x27 unchanged.").data.get? 0 =
      some ('R') := by
  decide

theorem print_ne_of_get0 {x t : String} {c d : Char} (hx : x.data.get? 0 = some c)
    (ht : t.data.get? 0 = some d) (hcd : c ≠ d) :
    Event.print x ∉ [Event.print t] := by
  simp only [List.mem_singleton]
  intro h
  injection h with h'
  exact ne_of_get hx ht hcd h'

theorem bline_count_stageBefore (cb : ClientBehavior) (app tv : String) :
    (evStageBefore cb app tv).count
      (Event.print ("WORKFLOW_STAGE_BEFORE=" ++ stageBeforeVal cb)) = 1 := by
  rw [evStageBefore_eq]
  simp [List.count_cons]

theorem aline_count_stageAfter (cb : ClientBehavior) (app tv : String) :
    (evStageAfter cb app tv).count
      (Event.print ("WORKFLOW_STAGE_AFTER=" ++ stageAfterVal cb)) = 1 := by
  rw [evStageAfter_eq]
  simp [List.count_cons]

/-- Decomposition of a found-and-rolled-back trace: the fixed prefix of
read-only steps followed by a tail that holds no workflow stage line. -/
theorem found_trace_decomp (cb : ClientBehavior) (app tv : String) (dry : Bool)
    {target : VRec}
    (hby : by_version (get_prod_versions cb.versionsResp) tv = some target)
    (hr2 : (evRollback cb app tv dry).2 = none) :
    ∃ tail : List Event,
      (rollback_in_prod cb app tv dry).1 =
        [Event.callList app] ++ evStageBefore cb app tv ++ (evRollback cb app tv dry).1
          ++ evStageAfter cb app tv ++ tail ∧
      (∀ s, Event.print ("WORKFLOW_STAGE_BEFORE=" ++ s) ∉ tail) ∧
      (∀ s, Event.print ("WORKFLOW_STAGE_AFTER=" ++ s) ∉ tail) := by
  by_cases htag : target.tag = LATEST_TAG
  · cases hpick : pick_next_latest (get_prod_versions cb.versionsResp) tv with
    | none =>
      refine ⟨backup_tag_then_patch app tv BACKUP_BEFORE_QUARANTINE QUARANTINE_TAG
          target.tag dry ++ [Event.print
          ("No successor found for latest; system will have no \x27latest\x27 until next promote.")],
        ?_, ?_, ?_⟩
      · rw [rollback_eq_latest_nosucc cb app tv dry hby hr2 htag hpick]
        simp [List.append_assoc]
      · intro s hm
        rcases List.mem_append.mp hm with h | h
        · exact wline_not_mem_backup app tv BACKUP_BEFORE_QUARANTINE QUARANTINE_TAG
            target.tag s dry bline_get0 h
        · exact print_ne_of_get0 (bline_get0 s) nosucc_get0 (by decide) h
      · intro s hm
        rcases List.mem_append.mp hm with h | h
        · exact wline_not_mem_backup app tv BACKUP_BEFORE_QUARANTINE QUARANTINE_TAG
            target.tag s dry aline_get0 h
        · exact print_ne_of_get0 (aline_get0 s) nosucc_get0 (by decide) h
    | some cand =>
      refine ⟨backup_tag_then_patch app tv BACKUP_BEFORE_QUARANTINE QUARANTINE_TAG
          target.tag dry
          ++ backup_tag_then_patch app cand.version BACKUP_BEFORE_LATEST LATEST_TAG
              cand.tag dry
          ++ [Event.print ("Reassigned latest to " ++ cand.version)],
        ?_, ?_, ?_⟩
      · rw [rollback_eq_latest_succ cb app tv dry hby hr2 htag hpick]
        simp [List.append_assoc]
      · intro s hm
        rcases List.mem_append.mp hm with h | h
        · rcases List.mem_append.mp h with h | h
          · exact wline_not_mem_backup app tv BACKUP_BEFORE_QUARANTINE QUARANTINE_TAG
              target.tag s dry bline_get0 h
          · exact wline_not_mem_backup app cand.version BACKUP_BEFORE_LATEST LATEST_TAG
              cand.tag s dry bline_get0 h
        · exact print_ne_of_get0 (bline_get0 s) (tmpl_reassigned_get0 cand.version)
            (by decide) h
      · intro s hm
        rcases List.mem_append.mp hm with h | h
        · rcases List.mem_append.mp h with h | h
          · exact wline_not_mem_backup app tv BACKUP_BEFORE_QUARANTINE QUARANTINE_TAG
              target.tag s dry aline_get0 h
          · exact wline_not_mem_backup app cand.version BACKUP_BEFORE_LATEST LATEST_TAG
              cand.tag s dry aline_get0 h
        · exact print_ne_of_get0 (aline_get0 s) (tmpl_reassigned_get0 cand.version)
            (by decide) h
  · refine ⟨backup_tag_then_patch app tv BACKUP_BEFORE_QUARANTINE QUARANTINE_TAG
        target.tag dry ++ [Event.print
        ("Rolled back non-latest version; \x27latest\x27 unchanged.")],
      ?_, ?_, ?_⟩
    · rw [rollback_eq_nonlatest cb app tv dry hby hr2 htag]
      simp [List.append_assoc]
    · intro s hm
      rcases List.mem_append.mp hm with h | h
      · exact wline_not_mem_backup app tv BACKUP_BEFORE_QUARANTINE QUARANTINE_TAG
          target.tag s dry bline_get0 h
      · exact print_ne_of_get0 (bline_get0 s) rolledback_get0 (by decide) h
    · intro s hm
      rcases List.mem_append.mp hm with h | h
      · exact wline_not_mem_backup app tv BACKUP_BEFORE_QUARANTINE QUARANTINE_TAG
          target.tag s dry aline_get0 h
      · exact print_ne_of_get0 (aline_get0 s) rolledback_get0 (by decide) h

/-- C1: every patch call a non-dry run issues is one of the two tag
overwrites, and each carries, in its one-key properties body (assigned,
hence overwritten, not appended), the pre-overwrite tag snapshotted into
the dedicated backup property: quarantining the target backs the
target's resolved tag into original_tag_before_quarantine, and
reassigning latest to the successor backs the successor's tag into
original_tag_before_latest. -/
theorem C1_backup_before_mutate
    (cb : ClientBehavior) (app tv : String)
    (a v : String) (tg : Option String) (pr : List (String × List String))
    (hm : Event.callPatch a v tg pr ∈ (rollback_in_prod cb app tv false).1) :
    (∃ target, by_version (get_prod_versions cb.versionsResp) tv = some target ∧
      a = app ∧ v = tv ∧ tg = some QUARANTINE_TAG ∧
      pr = [(BACKUP_BEFORE_QUARANTINE, [target.tag])]) ∨
    (∃ cand, pick_next_latest (get_prod_versions cb.versionsResp) tv = some cand ∧
      a = app ∧ v = cand.version ∧ tg = some LATEST_TAG ∧
      pr = [(BACKUP_BEFORE_LATEST, [cand.tag])]) := by
  cases hby : by_version (get_prod_versions cb.versionsResp) tv with
  | none =>
    rw [rollback_eq_notfound cb app tv false hby] at hm
    simp at hm
  | some target =>
    cases hok : cb.rollbackOk with
    | false =>
      have hr2 : (evRollback cb app tv false).2 =
          some ("AppTrust rollback API call failed") := by
        rw [evRollback_fail cb app tv hok]
      rw [rollback_eq_rollfail cb app tv false hby hr2] at hm
      simp only [List.append_assoc, List.mem_append] at hm
      rcases hm with h | h | h
      · simp at h
      · exact absurd h (patch_not_mem_stageBefore cb app tv a v tg pr)
      · exact absurd h (patch_not_mem_evRollback cb app tv a v tg pr false)
    | true =>
      have hr2 : (evRollback cb app tv false).2 = none :=
        evRollback_snd_none cb app tv false (Or.inr hok)
      by_cases htag : target.tag = LATEST_TAG
      · cases hpick : pick_next_latest (get_prod_versions cb.versionsResp) tv with
        | none =>
          rw [rollback_eq_latest_nosucc cb app tv false hby hr2 htag hpick] at hm
          simp only [List.append_assoc, List.mem_append] at hm
          rcases hm with h | h | h | h | h | h
          · simp at h
          · exact absurd h (patch_not_mem_stageBefore cb app tv a v tg pr)
          · exact absurd h (patch_not_mem_evRollback cb app tv a v tg pr false)
          · exact absurd h (patch_not_mem_stageAfter cb app tv a v tg pr)
          · obtain ⟨_, h1, h2, h3, h4⟩ := patch_mem_backup h
            exact Or.inl ⟨target, rfl, h1, h2, h3, h4⟩
          · simp at h
        | some cand =>
          rw [rollback_eq_latest_succ cb app tv false hby hr2 htag hpick] at hm
          simp only [List.append_assoc, List.mem_append] at hm
          rcases hm with h | h | h | h | h | h | h
          · simp at h
          · exact absurd h (patch_not_mem_stageBefore cb app tv a v tg pr)
          · exact absurd h (patch_not_mem_evRollback cb app tv a v tg pr false)
          · exact absurd h (patch_not_mem_stageAfter cb app tv a v tg pr)
          · obtain ⟨_, h1, h2, h3, h4⟩ := patch_mem_backup h
            exact Or.inl ⟨target, rfl, h1, h2, h3, h4⟩
          · obtain ⟨_, h1, h2, h3, h4⟩ := patch_mem_backup h
            exact Or.inr ⟨cand, rfl, h1, h2, h3, h4⟩
          · simp at h
      · rw [rollback_eq_nonlatest cb app tv false hby hr2 htag] at hm
        simp only [List.append_assoc, List.mem_append] at hm
        rcases hm with h | h | h | h | h | h
        · simp at h
        · exact absurd h (patch_not_mem_stageBefore cb app tv a v tg pr)
        · exact absurd h (patch_not_mem_evRollback cb app tv a v tg pr false)
        · exact absurd h (patch_not_mem_stageAfter cb app tv a v tg pr)
        · obtain ⟨_, h1, h2, h3, h4⟩ := patch_mem_backup h
          exact Or.inl ⟨target, rfl, h1, h2, h3, h4⟩
        · simp at h

/-- Witness for C1: a non-dry run on `cbC1` issues the quarantine patch,
which C1 resolves to a target-tag backup. -/
theorem C1_witness :
    (Event.callPatch "app" "2.0.0" (some "quarantine")
        [("original_tag_before_quarantine", ["latest"])] ∈
      (rollback_in_prod cbC1 "app" "2.0.0" false).1) ∧
    ((∃ target, by_version (get_prod_versions cbC1.versionsResp) "2.0.0" = some target ∧
        "app" = "app" ∧ "2.0.0" = "2.0.0" ∧
        (some "quarantine" : Option String) = some QUARANTINE_TAG ∧
        [("original_tag_before_quarantine", ["latest"])] =
          [(BACKUP_BEFORE_QUARANTINE, [target.tag])]) ∨
     (∃ cand, pick_next_latest (get_prod_versions cbC1.versionsResp) "2.0.0" = some cand ∧
        "app" = "app" ∧ "2.0.0" = cand.version ∧
        (some "quarantine" : Option String) = some LATEST_TAG ∧
        [("original_tag_before_quarantine", ["latest"])] =
          [(BACKUP_BEFORE_LATEST, [cand.tag])])) :=
  ⟨by decide,
   C1_backup_before_mutate cbC1 "app" "2.0.0" "app" "2.0.0" (some "quarantine")
     [("original_tag_before_quarantine", ["latest"])] (by decide)⟩

/-- C8 counterexample: when the post-rollback stage query fails, the
stage the code emits is `bookverse-STAGING` — the entry preceding PROD
in its hard-coded list `["UNASSIGNED", "bookverse-DEV", "bookverse-QA",
"bookverse-STAGING", "PROD"]` — not `STAGING` as the claim's lifecycle
`UNASSIGNED → DEV → QA → STAGING → PROD` would have it. -/
theorem C8_counterexample :
    cbC8.stageAfter = none ∧
    Event.print ("WORKFLOW_STAGE_AFTER=" ++ "bookverse-STAGING") ∈
      (rollback_in_prod cbC8 "app" "1.0.0" true).1 ∧
    Event.print ("WORKFLOW_STAGE_AFTER=" ++ "STAGING") ∉
      (rollback_in_prod cbC8 "app" "1.0.0" true).1 := by
  decide

/-- C8 (amended): in every run that reaches the rollback step and does
not abort on it, the trace holds exactly one `WORKFLOW_STAGE_BEFORE=`
line and exactly one `WORKFLOW_STAGE_AFTER=` line, each carrying the
stage value of its best-effort query, whose failure is never fatal: a
failed pre-rollback query falls back to `PROD`, and a failed
post-rollback query falls back to the entry immediately preceding
`"PROD"` in the code's lifecycle list, namely `bookverse-STAGING`. -/
theorem C8_workflow_stage_lines
    (cb : ClientBehavior) (app tv : String) (dry : Bool) (target : VRec)
    (hby : by_version (get_prod_versions cb.versionsResp) tv = some target)
    (hsucc : dry = true ∨ cb.rollbackOk = true) :
    ((rollback_in_prod cb app tv dry).1.count
        (Event.print ("WORKFLOW_STAGE_BEFORE=" ++ stageBeforeVal cb)) = 1) ∧
    (∀ s, Event.print ("WORKFLOW_STAGE_BEFORE=" ++ s) ∈ (rollback_in_prod cb app tv dry).1 →
      s = stageBeforeVal cb) ∧
    ((rollback_in_prod cb app tv dry).1.count
        (Event.print ("WORKFLOW_STAGE_AFTER=" ++ stageAfterVal cb)) = 1) ∧
    (∀ s, Event.print ("WORKFLOW_STAGE_AFTER=" ++ s) ∈ (rollback_in_prod cb app tv dry).1 →
      s = stageAfterVal cb) ∧
    (cb.stageBefore = none → stageBeforeVal cb = "PROD") ∧
    (cb.stageAfter = none → stageAfterVal cb = "bookverse-STAGING") := by
  have hr2 := evRollback_snd_none cb app tv dry hsucc
  obtain ⟨tail, htr, hbt, hat⟩ := found_trace_decomp cb app tv dry hby hr2
  refine ⟨?_, ?_, ?_, ?_, ?_, ?_⟩
  · rw [htr]
    simp only [List.count_append]
    rw [bline_count_stageBefore,
        List.count_eq_zero.mpr
          (wline_not_mem_evRollback cb app tv (stageBeforeVal cb) dry bline_get0),
        List.count_eq_zero.mpr (bline_not_mem_stageAfter cb app tv (stageBeforeVal cb)),
        List.count_eq_zero.mpr (hbt (stageBeforeVal cb))]
    simp
  · intro s hs
    rw [htr] at hs
    simp only [List.append_assoc, List.mem_append] at hs
    rcases hs with h | h | h | h | h
    · simp at h
    · exact (bline_mem_stageBefore_iff cb app tv s).mp h
    · exact absurd h (wline_not_mem_evRollback cb app tv s dry bline_get0)
    · exact absurd h (bline_not_mem_stageAfter cb app tv s)
    · exact absurd h (hbt s)
  · rw [htr]
    simp only [List.count_append]
    rw [aline_count_stageAfter,
        List.count_eq_zero.mpr
          (wline_not_mem_evRollback cb app tv (stageAfterVal cb) dry aline_get0),
        List.count_eq_zero.mpr (aline_not_mem_stageBefore cb app tv (stageAfterVal cb)),
        List.count_eq_zero.mpr (hat (stageAfterVal cb))]
    simp
  · intro s hs
    rw [htr] at hs
    simp only [List.append_assoc, List.mem_append] at hs
    rcases hs with h | h | h | h | h
    · simp at h
    · exact absurd h (aline_not_mem_stageBefore cb app tv s)
    · exact absurd h (wline_not_mem_evRollback cb app tv s dry aline_get0)
    · exact (aline_mem_stageAfter_iff cb app tv s).mp h
    · exact absurd h (hat s)
  · intro h
    unfold stageBeforeVal
    rw [h]
  · intro h
    unfold stageAfterVal
    rw [h]

/-- Witness for C8 on `cbC8`, whose post-rollback query fails. -/
theorem C8_witness :
    by_version (get_prod_versions cbC8.versionsResp) "1.0.0" =
      some (VRec.mk "1.0.0" "" "RELEASED") ∧
    (rollback_in_prod cbC8 "app" "1.0.0" true).1.count
        (Event.print ("WORKFLOW_STAGE_AFTER=" ++ stageAfterVal cbC8)) = 1 ∧
    stageAfterVal cbC8 = "bookverse-STAGING" :=
  ⟨by decide,
   (C8_workflow_stage_lines cbC8 "app" "1.0.0" true (VRec.mk "1.0.0" "" "RELEASED")
      (by decide) (Or.inl rfl)).2.2.1,
   (C8_workflow_stage_lines cbC8 "app" "1.0.0" true (VRec.mk "1.0.0" "" "RELEASED")
      (by decide) (Or.inl rfl)).2.2.2.2.2 rfl⟩

/-- C10: when the eligible view holds several records of the target's
version, the orchestrator resolves the target to the last such record in
view order, so the quarantine backup snapshots that record's tag, the
latest-reassignment happens exactly when that record's tag is `latest`,
and no `latest` patch is issued when it is not. -/
theorem C10_duplicate_target_resolves_to_last
    (cb : ClientBehavior) (app tv : String) (target : VRec)
    (hlast : ((get_prod_versions cb.versionsResp).filter
        (fun r => decide (tv = r.version))).getLast? = some target)
    (hok : cb.rollbackOk = true) :
    by_version (get_prod_versions cb.versionsResp) tv = some target ∧
    Event.callPatch app tv (some QUARANTINE_TAG) [(BACKUP_BEFORE_QUARANTINE, [target.tag])]
      ∈ (rollback_in_prod cb app tv false).1 ∧
    (¬ target.tag = LATEST_TAG →
      ∀ a v pr, Event.callPatch a v (some LATEST_TAG) pr ∉
        (rollback_in_prod cb app tv false).1) ∧
    (∀ cand, target.tag = LATEST_TAG →
      pick_next_latest (get_prod_versions cb.versionsResp) tv = some cand →
        Event.callPatch app cand.version (some LATEST_TAG)
          [(BACKUP_BEFORE_LATEST, [cand.tag])] ∈ (rollback_in_prod cb app tv false).1) := by
  have hby : by_version (get_prod_versions cb.versionsResp) tv = some target := by
    rw [by_version_eq]
    exact hlast
  have hr2 : (evRollback cb app tv false).2 = none :=
    evRollback_snd_none cb app tv false (Or.inr hok)
  refine ⟨hby, ?_, ?_, ?_⟩
  · by_cases htag : target.tag = LATEST_TAG
    · cases hpick : pick_next_latest (get_prod_versions cb.versionsResp) tv with
      | none =>
        rw [rollback_eq_latest_nosucc cb app tv false hby hr2 htag hpick]
        simp only [backup_patch_eq]
        simp
      | some cand =>
        rw [rollback_eq_latest_succ cb app tv false hby hr2 htag hpick]
        simp only [backup_patch_eq]
        simp
    · rw [rollback_eq_nonlatest cb app tv false hby hr2 htag]
      simp only [backup_patch_eq]
      simp
  · intro htag a v pr hm
    rw [rollback_eq_nonlatest cb app tv false hby hr2 htag] at hm
    simp only [List.append_assoc, List.mem_append] at hm
    rcases hm with h | h | h | h | h | h
    · simp at h
    · exact patch_not_mem_stageBefore cb app tv a v (some LATEST_TAG) pr h
    · exact patch_not_mem_evRollback cb app tv a v (some LATEST_TAG) pr false h
    · exact patch_not_mem_stageAfter cb app tv a v (some LATEST_TAG) pr h
    · obtain ⟨_, _, _, h3, _⟩ := patch_mem_backup h
      exact absurd h3 (by decide)
    · simp at h
  · intro cand htag hpick
    rw [rollback_eq_latest_succ cb app tv false hby hr2 htag hpick]
    simp only [backup_patch_eq]
    simp

/-- Witness for C10 on `cbC10`: duplicate `2.0.0` records whose last
occurrence in view order carries `latest`. -/
theorem C10_witness :
    ((get_prod_versions cbC10.versionsResp).filter
        (fun r => decide ("2.0.0" = r.version))).getLast? =
      some (VRec.mk "2.0.0" "latest" "TRUSTED_RELEASE") ∧
    by_version (get_prod_versions cbC10.versionsResp) "2.0.0" =
      some (VRec.mk "2.0.0" "latest" "TRUSTED_RELEASE") :=
  ⟨by decide,
   (C10_duplicate_target_resolves_to_last cbC10 "app" "2.0.0"
      (VRec.mk "2.0.0" "latest" "TRUSTED_RELEASE") (by decide) rfl).1⟩

end Bookverse
